import Mathlib

/-
Formal model of the cache-assisted hierarchical serialization engine in
sa_api_v2/serializers.py (Shareabouts REST API).  Python dictionaries are
embedded as insertion-ordered association lists with string keys; the
schema-less attribute blob travels as a parsed JSON object, with the external
`ujson` collaborator's dumps/loads pair modelled as the identity coding
between an object node and its parsed dictionary.
-/

set_option maxHeartbeats 1000000

namespace Shareabouts

/-- JSON-style values as carried by serialized documents and attribute blobs.
An `obj` node stands for a serialized JSON object, an `arr` node for a JSON
array. -/
inductive JVal where
  | null : JVal
  | str : String → JVal
  | num : Int → JVal
  | boolean : Bool → JVal
  | obj : List (String × JVal) → JVal
  | arr : List JVal → JVal

/-- An insertion-ordered association list standing for a Python `dict` with
string keys.  Key uniqueness, an invariant of the Python type, is stated as a
`Nodup` hypothesis where a proof needs it. -/
abbrev AList (α : Type) : Type := List (String × α)

/-- A serialized document or parsed attribute blob: a `dict` of JSON values. -/
abbrev Dict : Type := AList JVal

/-- Reading `d[k]`: the first binding of `k`. -/
def alookup {α : Type} : AList α → String → Option α
  | [], _ => none
  | kv :: rest, k => if kv.1 = k then some kv.2 else alookup rest k

/-- The key list of a dictionary, in insertion order. -/
def akeys {α : Type} (d : AList α) : List String :=
  d.map Prod.fst

/-- Deleting `d[k]` (Python `del d[k]` / `d.pop(k)` for the value part). -/
def aerase {α : Type} : AList α → String → AList α
  | [], _ => []
  | kv :: rest, k => if kv.1 = k then aerase rest k else kv :: aerase rest k

/-- Writing `d[k] = v`: replace the binding of `k` in place, or append it. -/
def ainsert {α : Type} : AList α → String → α → AList α
  | [], k, v => [(k, v)]
  | kv :: rest, k, v =>
    if kv.1 = k then (k, v) :: aerase rest k else kv :: ainsert rest k v

/-- Python `d.update(other)`: fold the right dictionary's bindings into the
left one, in the right one's iteration order. -/
def aupdate {α : Type} (d other : AList α) : AList α :=
  other.foldl (fun acc kv => ainsert acc kv.1 kv.2) d

/-- Parsing a stored attribute blob (`ujson.loads`).  The code raises a
MalformedBlobError when the stored payload is not a JSON object; none of the
serialization paths modelled here exercises that branch, and a non-object
payload is mapped to the empty dictionary. -/
def json_loads : JVal → Dict
  | JVal.obj d => d
  | _ => []

/-- DataBlobProcessor.explode_data_blob (serializers.py 279-292): pop the
serialized blob off the document's reserved `data` key, parse it, delete every
blob key starting with `private` unless the request asked for private data,
and fold the surviving blob entries into the document. -/
def explode_data_blob (include_private : Bool) (data : Dict) : Dict :=
  let blob := match alookup data "data" with
    | some v => v
    | none => JVal.null
  let rest := aerase data "data"
  let blob_data := json_loads blob
  let visible_blob := if include_private then blob_data
    else blob_data.filter (fun kv => !(kv.1.startsWith "private"))
  aupdate rest visible_blob

/-- DataBlobProcessor.convert_object (serializers.py 235-242): merge the
parsed blob into the structured attributes after deleting the raw `data`
entry. -/
def convert_object (attrs : Dict) : Dict :=
  let data := json_loads (match alookup attrs "data" with
    | some v => v
    | none => JVal.null)
  aupdate (aerase attrs "data") data

/-- The read-direction flattening of a structured-field set `S` carrying its
serialized blob `B`: the structured document holds `B` under its reserved
`data` key and is then exploded (DataBlobProcessor.to_native). -/
def flatten (include_private : Bool) (S B : Dict) : Dict :=
  explode_data_blob include_private (ainsert S "data" (JVal.obj B))

/-- A serializer field declaration as consulted by restore_fields: its
read-only flag and its model default. -/
structure FieldSpec where
  read_only : Bool
  default : JVal

/-- The known-field test of DataBlobProcessor.restore_fields (254-262): model
field names plus declared serializer fields, with `data` removed so that it is
never treated as a literal input field name. -/
def known_field (model_fields : List String) (base_fields : AList FieldSpec)
    (k : String) : Bool :=
  (model_fields.contains k || (akeys base_fields).contains k) && !(k == "data")

/-- The routing loop of restore_fields (264-268): each input key goes into the
structured copy when known, otherwise into the blob. -/
def route_fields (kf : String → Bool) (acc : Dict × Dict) : Dict → Dict × Dict
  | [] => acc
  | kv :: rest =>
    if kf kv.1 then route_fields kf (ainsert acc.1 kv.1 kv.2, acc.2) rest
    else route_fields kf (acc.1, ainsert acc.2 kv.1 kv.2) rest

/-- The default back-fill loop of restore_fields (272-275): on a non-partial
write, every writable declared field absent from the structured copy receives
its declared default. -/
def backfill_defaults (base_fields : AList FieldSpec) (dc : Dict) : Dict :=
  base_fields.foldl
    (fun acc kv =>
      if !kv.2.read_only && !((akeys acc).contains kv.1) then
        ainsert acc kv.1 kv.2.default
      else acc)
    dc

/-- DataBlobProcessor.restore_fields (244-277): partition the input document
into known fields and blob, store the serialized blob back under the `data`
key, and back-fill field defaults when the write is not a partial update. -/
def restore_fields (model_fields : List String) (base_fields : AList FieldSpec)
    (partialUpdate : Bool) (data : Dict) : Dict :=
  let pair := route_fields (known_field model_fields base_fields) ([], []) data
  let data_copy := ainsert pair.1 "data" (JVal.obj pair.2)
  if partialUpdate then data_copy else backfill_defaults base_fields data_copy

/-- The structured half of a split document: everything but the blob entry. -/
def split_structured (doc : Dict) : Dict :=
  aerase doc "data"

/-- The blob half of a split document: the parsed payload of its `data`
entry. -/
def split_blob (doc : Dict) : Dict :=
  json_loads (match alookup doc "data" with
    | some v => v
    | none => JVal.null)

/-- The entity kinds whose ancestor-path parameters the engine caches.  Each
Django model carries its own cache namespace (`self.opts.model.cache`), so a
cache key is a kind paired with a primary key. -/
inductive Kind where
  | owner : Kind
  | dataset : Kind
  | place : Kind
  | submissionSet : Kind
  | submission : Kind
deriving DecidableEq

/-- A cache key: `cache.get_instance_params_key(pk)` in the model's own cache
namespace. -/
abbrev Key : Type := Kind × Nat

/-- An ordered mapping of ancestor-path parameter names to values
(CachedPathParams, spec section 3). -/
abbrev Params : Type := AList String

/-- Modelled from the spec: the primary-store accessor together with the live
ancestor-chain derivation of sa_api_v2.cache (the cache module is not under
src/).  `params k` is the full set of path parameters that live traversal of
the primary store derives for the entity behind key `k`; per spec section 4.2
it is a pure function of primary-store state. -/
structure World where
  params : Key → Params

/-- Modelled from the spec: the state of the cache layer of sa_api_v2.cache
(not under src/).  `backend` is the shared key-value store; `buffer` is the
request-local buffer of cache_buffer, recording for each consulted key either
the fetched value or a known miss (spec sections 4.3, 5); `fetches` counts
round trips to the cache backend. -/
structure CacheState where
  backend : Key → Option Params
  buffer : Key → Option (Option Params)
  fetches : Nat

/-- Pointwise update of a backend mapping. -/
def setBackend (f : Key → Option Params) (k : Key) (v : Params) :
    Key → Option Params :=
  fun k2 => if k2 = k then some v else f k2

/-- Pointwise update of a request-local buffer. -/
def setBuffer (f : Key → Option (Option Params)) (k : Key) (v : Option Params) :
    Key → Option (Option Params) :=
  fun k2 => if k2 = k then some v else f k2

/-- Modelled from the spec: cache_buffer.get_many (sa_api_v2.cache, not under
src/).  One batched round trip against the backend records a value-or-miss in
the request-local buffer for every requested key not already resolved in this
request (spec section 4.3: idempotent, fetches only unresolved keys; section
5: partial results are normal). -/
def cacheGetMany (keys : List Key) (st : CacheState) : CacheState :=
  { backend := st.backend
    buffer := fun k => match st.buffer k with
      | some x => some x
      | none => if k ∈ keys then some (st.backend k) else none
    fetches := st.fetches + 1 }

/-- Modelled from the spec: cache.get_cached_instance_params (sa_api_v2.cache,
not under src/), per spec section 4.2.  A buffered key is answered locally; an
unbuffered key costs one backend round trip; on a miss the parameters are
derived live from the primary store and written through to the cache. -/
def get_cached_instance_params (w : World) (key : Key) (st : CacheState) :
    Params × CacheState :=
  match st.buffer key with
  | some (some ps) => (ps, st)
  | some none =>
    (w.params key,
     { backend := setBackend st.backend key (w.params key)
       buffer := setBuffer st.buffer key (some (w.params key))
       fetches := st.fetches })
  | none =>
    match st.backend key with
    | some ps =>
      (ps,
       { backend := st.backend
         buffer := setBuffer st.buffer key (some ps)
         fetches := st.fetches + 1 })
    | none =>
      (w.params key,
       { backend := setBackend st.backend key (w.params key)
         buffer := setBuffer st.buffer key (some (w.params key))
         fetches := st.fetches + 1 })

/-- The parameter mapping that resolution returns for a key in a given state:
the buffered value, else the backend value, else the live derivation.  Every
cache operation below preserves this function, which is what makes the
batched preload observationally invisible. -/
def resolvedValue (w : World) (st : CacheState) (k : Key) : Params :=
  match st.buffer k with
  | some (some ps) => ps
  | some none => w.params k
  | none => match st.backend k with
    | some ps => ps
    | none => w.params k

/-- The external identifier builder (django's `reverse`, spec section 6):
a pure function of the view name and the resolved path parameters. -/
def reverseUrl (view : String) (kwargs : Params) : String :=
  view ++ "(" ++ String.intercalate "," (kwargs.map (fun kv => kv.1 ++ "=" ++ kv.2)) ++ ")"

/-- The live-attribute fallback `getattr(obj, arg_name)` as it behaves for the
cached entity kinds: none of the Django models exposes a URL argument name as
a direct attribute, so the fallback always misses for them (it exists for the
User special case, which supplies its parameters without the cache). -/
def no_live_attrs : String → Option String :=
  fun _ => none

/-- The argument loop of ShareaboutsFieldMixin.get_url_kwargs (serializers.py
83-91): each URL argument is taken from the cached instance parameters, then
from a live attribute read, and a parameter found on neither path raises a
KeyError naming it (UnresolvedPathError in the spec's taxonomy). -/
def buildUrlKwargs (arg_names : List String) (instance_kwargs : Params)
    (getattrF : String → Option String) : Except String Params :=
  match arg_names with
  | [] => Except.ok []
  | a :: rest =>
    match (match alookup instance_kwargs a with
           | some x => some x
           | none => getattrF a) with
    | some x =>
      match buildUrlKwargs rest instance_kwargs getattrF with
      | Except.ok kw => Except.ok ((a, x) :: kw)
      | Except.error e => Except.error e
    | none => Except.error a

/-- ShareaboutsFieldMixin.get_url_kwargs (serializers.py 73-91), non-User
branch: pull the instance parameters off the cache, then run the argument
loop. -/
def get_url_kwargs (w : World) (arg_names : List String) (key : Key)
    (getattrF : String → Option String) (st : CacheState) :
    Except String Params × CacheState :=
  (buildUrlKwargs arg_names (get_cached_instance_params w key st).1 getattrF,
   (get_cached_instance_params w key st).2)

/-- PlaceIdentityField.url_arg_names (serializers.py 167). -/
def placeArgs : List String :=
  ["owner_username", "dataset_slug", "place_id"]

/-- SubmissionSetIdentityField.url_arg_names (serializers.py 171). -/
def submissionSetArgs : List String :=
  ["owner_username", "dataset_slug", "place_id", "submission_set_name"]

/-- SubmissionIdentityField.url_arg_names (serializers.py 186). -/
def submissionArgs : List String :=
  ["owner_username", "dataset_slug", "place_id", "submission_set_name", "submission_id"]

/-- DataSetRelatedField.url_arg_names (serializers.py 121). -/
def datasetArgs : List String :=
  ["owner_username", "dataset_slug"]

/-- An attachment as serialized by AttachmentSerializer.to_native
(serializers.py 205-212); datetimes and the storage URL are carried as the
strings the wire encoding will receive. -/
structure AttachmentRec where
  created_datetime : String
  updated_datetime : String
  fileUrl : String
  name : String

/-- AttachmentSerializer.to_native (serializers.py 205-212). -/
def attachment_to_native (a : AttachmentRec) : JVal :=
  JVal.obj [("created_datetime", JVal.str a.created_datetime),
            ("updated_datetime", JVal.str a.updated_datetime),
            ("file", JVal.str a.fileUrl),
            ("name", JVal.str a.name)]

/-- A Submission row: visibility flag, parsed attribute blob, and the
presentation fields its serializer reads.  Ancestor identifiers live in the
world's path parameters, keyed by `(Kind.submission, pk)`. -/
structure SubmissionRec where
  pk : Nat
  visible : Bool
  blob : Dict
  submitter : Option String
  created_datetime : Option String
  updated_datetime : Option String
  attachments : List AttachmentRec

/-- A SubmissionSet row: its name (unique within its place) and its ordered
children. -/
structure SubmissionSetRec where
  pk : Nat
  name : String
  children : List SubmissionRec

/-- A Place row with the fields PlaceSerializer.get_uncached_data reads.
`geometry` is the WKT rendering of the stored geometry, or none when the
stored geometry is null. -/
structure PlaceRec where
  pk : Nat
  visible : Bool
  geometry : Option String
  dataset_id : Nat
  blob : Dict
  submitter : Option String
  created_datetime : Option String
  updated_datetime : Option String
  attachments : List AttachmentRec
  submission_sets : List SubmissionSetRec
  distance : Option String

/-- The per-request boolean flags, as extracted from the query string by
CachedSerializer.get_cache_params (serializers.py 373-398). -/
structure Flags where
  include_submissions : Bool
  include_private : Bool
  include_invisible : Bool

/-- An optional isoformat datetime as rendered by get_uncached_data. -/
def optStr : Option String → JVal
  | some s => JVal.str s
  | none => JVal.null

/-- The submitter entry: `UserSerializer(obj.submitter).data if obj.submitter
else None`.  UserSerializer's provider strategies are peripheral external
machinery; the user document is modelled as its username projection. -/
def submitterVal : Option String → JVal
  | some u => JVal.obj [("username", JVal.str u)]
  | none => JVal.null

/-- The visibility filter applied to a submission set's children in both
summary and detail mode (serializers.py 622-624 and 646-648). -/
def filteredChildren (fl : Flags) (ss : SubmissionSetRec) : List SubmissionRec :=
  if fl.include_invisible then ss.children else ss.children.filter (fun s => s.visible)

/-- SubmissionSetSummarySerializer.data for one set whose filtered length has
been stored on the instance (serializers.py 513-525): the record
`{length, url}` with the set's resolved identifier. -/
def summary_serializer_data (w : World) (ss : SubmissionSetRec) (len : Nat)
    (st : CacheState) : Except String JVal × CacheState :=
  ((match buildUrlKwargs submissionSetArgs
        (get_cached_instance_params w (Kind.submissionSet, ss.pk) st).1
        no_live_attrs with
    | Except.ok kw =>
      Except.ok (JVal.obj [("length", JVal.num (Int.ofNat len)),
                           ("url", JVal.str (reverseUrl "submission-list" kw))])
    | Except.error e => Except.error e),
   (get_cached_instance_params w (Kind.submissionSet, ss.pk) st).2)

/-- The loop of PlaceSerializer.get_submission_set_summaries (serializers.py
620-634): filter each set's children by visibility, skip sets whose filtered
length is zero, and store the summary record under the set's name. -/
def build_summaries (w : World) (fl : Flags) :
    List SubmissionSetRec → Dict → CacheState → Except String Dict × CacheState
  | [], acc, st => (Except.ok acc, st)
  | ss :: rest, acc, st =>
    if (filteredChildren fl ss).length = 0 then
      build_summaries w fl rest acc st
    else
      match summary_serializer_data w ss (filteredChildren fl ss).length st with
      | (Except.error e, st2) => (Except.error e, st2)
      | (Except.ok v, st2) => build_summaries w fl rest (ainsert acc ss.name v) st2

/-- One submission document in a detailed submission set.  Modelled from the
spec: Django REST Framework's generic ModelSerializer.to_native is an external
collaborator; the document carries the fields SubmissionSerializer declares
(serializers.py 698-709), each hyperlinked field resolving its target's path
parameters through the cache exactly as the src fields do, and the blob is
then exploded by DataBlobProcessor.to_native. -/
def submission_to_native (w : World) (fl : Flags) (dsPk plPk ssPk : Nat)
    (sub : SubmissionRec) (st : CacheState) : Except String Dict × CacheState :=
  match get_url_kwargs w submissionArgs (Kind.submission, sub.pk) no_live_attrs st with
  | (Except.error e, st1) => (Except.error e, st1)
  | (Except.ok u, st1) =>
    match get_url_kwargs w datasetArgs (Kind.dataset, dsPk) no_live_attrs st1 with
    | (Except.error e, st2) => (Except.error e, st2)
    | (Except.ok dkw, st2) =>
      match get_url_kwargs w submissionSetArgs (Kind.submissionSet, ssPk) no_live_attrs st2 with
      | (Except.error e, st3) => (Except.error e, st3)
      | (Except.ok skw, st3) =>
        match get_url_kwargs w placeArgs (Kind.place, plPk) no_live_attrs st3 with
        | (Except.error e, st4) => (Except.error e, st4)
        | (Except.ok pkw, st4) =>
          (Except.ok (explode_data_blob fl.include_private [
            ("url", JVal.str (reverseUrl "submission-detail" u)),
            ("id", JVal.num (Int.ofNat sub.pk)),
            ("dataset", JVal.str (reverseUrl "dataset-detail" dkw)),
            ("set", JVal.str (reverseUrl "submission-list" skw)),
            ("place", JVal.str (reverseUrl "place-detail" pkw)),
            ("attachments", JVal.arr (sub.attachments.map attachment_to_native)),
            ("submitter", submitterVal sub.submitter),
            ("created_datetime", optStr sub.created_datetime),
            ("updated_datetime", optStr sub.updated_datetime),
            ("visible", JVal.boolean sub.visible),
            ("data", JVal.obj sub.blob)]), st4)

/-- SubmissionSerializer(submissions, many=True).data: each member serialized
in order, the first failure aborting the list as an exception would. -/
def serialize_submission_list (w : World) (fl : Flags) (dsPk plPk ssPk : Nat) :
    List SubmissionRec → CacheState → Except String (List Dict) × CacheState
  | [], st => (Except.ok [], st)
  | sub :: rest, st =>
    match submission_to_native w fl dsPk plPk ssPk sub st with
    | (Except.error e, st1) => (Except.error e, st1)
    | (Except.ok doc, st1) =>
      match serialize_submission_list w fl dsPk plPk ssPk rest st1 with
      | (Except.error e, st2) => (Except.error e, st2)
      | (Except.ok docs, st2) => (Except.ok (doc :: docs), st2)

/-- The loop of PlaceSerializer.get_detailed_submission_sets (serializers.py
644-662): filter each set's children by visibility, skip sets with no
filtered children, and store the fully serialized child list under the set's
name. -/
def build_details (w : World) (fl : Flags) (dsPk plPk : Nat) :
    List SubmissionSetRec → Dict → CacheState → Except String Dict × CacheState
  | [], acc, st => (Except.ok acc, st)
  | ss :: rest, acc, st =>
    if (filteredChildren fl ss).length = 0 then
      build_details w fl dsPk plPk rest acc st
    else
      match serialize_submission_list w fl dsPk plPk ss.pk (filteredChildren fl ss) st with
      | (Except.error e, st1) => (Except.error e, st1)
      | (Except.ok docs, st1) =>
        build_details w fl dsPk plPk rest
          (ainsert acc ss.name (JVal.arr (docs.map JVal.obj))) st1

/-- PlaceSerializer.get_submission_set_summaries (serializers.py 612-634). -/
def get_submission_set_summaries (w : World) (fl : Flags) (p : PlaceRec)
    (st : CacheState) : Except String Dict × CacheState :=
  build_summaries w fl p.submission_sets [] st

/-- PlaceSerializer.get_detailed_submission_sets (serializers.py 636-662);
line 656 pins each submission's dataset to the place's own dataset. -/
def get_detailed_submission_sets (w : World) (fl : Flags) (p : PlaceRec)
    (st : CacheState) : Except String Dict × CacheState :=
  build_details w fl p.dataset_id p.pk p.submission_sets [] st

/-- PlaceSerializer.get_uncached_data (serializers.py 664-695): resolve the
place's identifier, assemble the structured document (a null geometry is
rendered as `str('POINT(0 0)')`), explode the blob with privacy filtering,
then fill in submission sets in summary or detail mode according to the
include_submissions flag, and append the distance annotation when present. -/
def place_to_native (w : World) (fl : Flags) (p : PlaceRec) (st : CacheState) :
    Except String Dict × CacheState :=
  match get_url_kwargs w placeArgs (Kind.place, p.pk) no_live_attrs st with
  | (Except.error e, st1) => (Except.error e, st1)
  | (Except.ok kw, st1) =>
    match (if fl.include_submissions then get_detailed_submission_sets w fl p st1
           else get_submission_set_summaries w fl p st1) with
    | (Except.error e, st2) => (Except.error e, st2)
    | (Except.ok ssets, st2) =>
      (Except.ok (
        let data0 : Dict := [
          ("url", JVal.str (reverseUrl "place-detail" kw)),
          ("id", JVal.num (Int.ofNat p.pk)),
          ("geometry", JVal.str (match p.geometry with
            | some g => g
            | none => "POINT(0 0)")),
          ("dataset", JVal.num (Int.ofNat p.dataset_id)),
          ("attachments", JVal.arr (p.attachments.map attachment_to_native)),
          ("submitter", submitterVal p.submitter),
          ("data", JVal.obj p.blob),
          ("visible", JVal.boolean p.visible),
          ("created_datetime", optStr p.created_datetime),
          ("updated_datetime", optStr p.updated_datetime)]
        let data1 := explode_data_blob fl.include_private data0
        let data2 := ainsert data1 "submission_sets" (JVal.obj ssets)
        match p.distance with
        | some dstr => ainsert data2 "distance" (JVal.str dstr)
        | none => data2), st2)

/-- renderOne (spec section 4.5): CachedSerializer.to_native for a single
place goes straight to get_uncached_data (serializers.py 356-365). -/
def renderOne (w : World) (fl : Flags) (p : PlaceRec) (st : CacheState) :
    Except String Dict × CacheState :=
  place_to_native w fl p st

/-- PlaceSerializer.get_data_cache_keys (serializers.py 312-330 and 589-610):
the instance-parameter keys of every member, of every member's submission
sets, and — only when include_submissions is on — of every submission. -/
def place_collection_cache_keys (fl : Flags) (places : List PlaceRec) : List Key :=
  let place_keys := places.map (fun p => ((Kind.place, p.pk) : Key))
  let submission_sets := (places.map (fun p => p.submission_sets)).flatten
  let ss_keys := submission_sets.map (fun ss => ((Kind.submissionSet, ss.pk) : Key))
  let sub_keys := if fl.include_submissions then
      ((submission_sets.map (fun ss => ss.children)).flatten).map
        (fun s => ((Kind.submission, s.pk) : Key))
    else []
  place_keys ++ (ss_keys ++ sub_keys)

/-- CachedSerializer.preload_serialized_data_keys (serializers.py 332-341)
for a many=True place serialization: one batched fetch over the collection's
cache keys. -/
def preload_serialized_data_keys (fl : Flags) (places : List PlaceRec)
    (st : CacheState) : CacheState :=
  cacheGetMany (place_collection_cache_keys fl places) st

/-- The member loop of a many=True serialization: each place rendered in
input order, errors surfaced per item (spec section 7's propagation policy;
the view layer driving the loop is not under src/). -/
def renderManyList (w : World) (fl : Flags) :
    List PlaceRec → CacheState → List (Except String Dict) × CacheState
  | [], st => ([], st)
  | p :: rest, st =>
    match renderOne w fl p st with
    | (doc, st1) =>
      match renderManyList w fl rest st1 with
      | (docs, st2) => (doc :: docs, st2)

/-- renderMany (spec section 4.5): the batched cache preload followed by
serialization of each member in order. -/
def renderMany (w : World) (fl : Flags) (places : List PlaceRec)
    (st : CacheState) : List (Except String Dict) × CacheState :=
  renderManyList w fl places (preload_serialized_data_keys fl places st)

/-- The state-free form of one submission-set summary record, given the
parameter mapping `rv` that resolution returns in the ambient state. -/
def summaryValPure (rv : Key → Params) (ss : SubmissionSetRec) (len : Nat) :
    Except String JVal :=
  match buildUrlKwargs submissionSetArgs (rv (Kind.submissionSet, ss.pk)) no_live_attrs with
  | Except.ok kw =>
    Except.ok (JVal.obj [("length", JVal.num (Int.ofNat len)),
                         ("url", JVal.str (reverseUrl "submission-list" kw))])
  | Except.error e => Except.error e

/-- The state-free form of the summary loop. -/
def pureSummaries (rv : Key → Params) (fl : Flags) :
    List SubmissionSetRec → Dict → Except String Dict
  | [], acc => Except.ok acc
  | ss :: rest, acc =>
    if (filteredChildren fl ss).length = 0 then
      pureSummaries rv fl rest acc
    else
      match summaryValPure rv ss (filteredChildren fl ss).length with
      | Except.error e => Except.error e
      | Except.ok v => pureSummaries rv fl rest (ainsert acc ss.name v)

/-- The state-free form of one serialized submission document. -/
def subDocPure (rv : Key → Params) (fl : Flags) (dsPk plPk ssPk : Nat)
    (sub : SubmissionRec) : Except String Dict :=
  match buildUrlKwargs submissionArgs (rv (Kind.submission, sub.pk)) no_live_attrs with
  | Except.error e => Except.error e
  | Except.ok u =>
    match buildUrlKwargs datasetArgs (rv (Kind.dataset, dsPk)) no_live_attrs with
    | Except.error e => Except.error e
    | Except.ok dkw =>
      match buildUrlKwargs submissionSetArgs (rv (Kind.submissionSet, ssPk)) no_live_attrs with
      | Except.error e => Except.error e
      | Except.ok skw =>
        match buildUrlKwargs placeArgs (rv (Kind.place, plPk)) no_live_attrs with
        | Except.error e => Except.error e
        | Except.ok pkw =>
          Except.ok (explode_data_blob fl.include_private [
            ("url", JVal.str (reverseUrl "submission-detail" u)),
            ("id", JVal.num (Int.ofNat sub.pk)),
            ("dataset", JVal.str (reverseUrl "dataset-detail" dkw)),
            ("set", JVal.str (reverseUrl "submission-list" skw)),
            ("place", JVal.str (reverseUrl "place-detail" pkw)),
            ("attachments", JVal.arr (sub.attachments.map attachment_to_native)),
            ("submitter", submitterVal sub.submitter),
            ("created_datetime", optStr sub.created_datetime),
            ("updated_datetime", optStr sub.updated_datetime),
            ("visible", JVal.boolean sub.visible),
            ("data", JVal.obj sub.blob)])

/-- The state-free form of a serialized submission list. -/
def pureSubList (rv : Key → Params) (fl : Flags) (dsPk plPk ssPk : Nat) :
    List SubmissionRec → Except String (List Dict)
  | [] => Except.ok []
  | sub :: rest =>
    match subDocPure rv fl dsPk plPk ssPk sub with
    | Except.error e => Except.error e
    | Except.ok doc =>
      match pureSubList rv fl dsPk plPk ssPk rest with
      | Except.error e => Except.error e
      | Except.ok docs => Except.ok (doc :: docs)

/-- The state-free form of the detail loop. -/
def pureDetails (rv : Key → Params) (fl : Flags) (dsPk plPk : Nat) :
    List SubmissionSetRec → Dict → Except String Dict
  | [], acc => Except.ok acc
  | ss :: rest, acc =>
    if (filteredChildren fl ss).length = 0 then
      pureDetails rv fl dsPk plPk rest acc
    else
      match pureSubList rv fl dsPk plPk ss.pk (filteredChildren fl ss) with
      | Except.error e => Except.error e
      | Except.ok docs =>
        pureDetails rv fl dsPk plPk rest
          (ainsert acc ss.name (JVal.arr (docs.map JVal.obj)))

/-- The state-free form of a rendered place document. -/
def placeDocPure (rv : Key → Params) (fl : Flags) (p : PlaceRec) :
    Except String Dict :=
  match buildUrlKwargs placeArgs (rv (Kind.place, p.pk)) no_live_attrs with
  | Except.error e => Except.error e
  | Except.ok kw =>
    match (if fl.include_submissions then
             pureDetails rv fl p.dataset_id p.pk p.submission_sets []
           else pureSummaries rv fl p.submission_sets []) with
    | Except.error e => Except.error e
    | Except.ok ssets =>
      Except.ok (
        let data0 : Dict := [
          ("url", JVal.str (reverseUrl "place-detail" kw)),
          ("id", JVal.num (Int.ofNat p.pk)),
          ("geometry", JVal.str (match p.geometry with
            | some g => g
            | none => "POINT(0 0)")),
          ("dataset", JVal.num (Int.ofNat p.dataset_id)),
          ("attachments", JVal.arr (p.attachments.map attachment_to_native)),
          ("submitter", submitterVal p.submitter),
          ("data", JVal.obj p.blob),
          ("visible", JVal.boolean p.visible),
          ("created_datetime", optStr p.created_datetime),
          ("updated_datetime", optStr p.updated_datetime)]
        let data1 := explode_data_blob fl.include_private data0
        let data2 := ainsert data1 "submission_sets" (JVal.obj ssets)
        match p.distance with
        | some dstr => ainsert data2 "distance" (JVal.str dstr)
        | none => data2)

/-- Resolvability of an argument list against a parameter mapping: the
argument loop finds every required parameter. -/
def argsOk (args : List String) (ps : Params) : Prop :=
  ∃ kw, buildUrlKwargs args ps no_live_attrs = Except.ok kw

/-- Sample data: a full path-parameter mapping covering every argument list. -/
def sampleParams : Params :=
  [("owner_username", "o"), ("dataset_slug", "d"), ("place_id", "1"),
   ("submission_set_name", "c"), ("submission_id", "2")]

/-- Sample data: a primary store whose live derivation always succeeds. -/
def sampleWorld : World :=
  { params := fun _ => sampleParams }

/-- Sample data: a cold cache with no fetches issued yet. -/
def emptyCache : CacheState :=
  { backend := fun _ => none, buffer := fun _ => none, fetches := 0 }

/-- Sample data: a visible submission. -/
def sampleSubmission : SubmissionRec :=
  { pk := 2, visible := true, blob := [], submitter := none,
    created_datetime := none, updated_datetime := none, attachments := [] }

/-- Sample data: an invisible submission. -/
def invisibleSubmission : SubmissionRec :=
  { pk := 3, visible := false, blob := [], submitter := none,
    created_datetime := none, updated_datetime := none, attachments := [] }

/-- Sample data: a submission set with one visible and one invisible child. -/
def sampleSet : SubmissionSetRec :=
  { pk := 11, name := "comments", children := [sampleSubmission, invisibleSubmission] }

/-- Sample data: a submission set with no children. -/
def supportSet : SubmissionSetRec :=
  { pk := 12, name := "support", children := [] }

/-- Sample data: a place with a geometry, a blob holding a private key, and
the two sample submission sets. -/
def samplePlace : PlaceRec :=
  { pk := 1, visible := true, geometry := some "POINT(1 1)", dataset_id := 5,
    blob := [("notes", JVal.str "hi"), ("private_phone", JVal.str "555")],
    submitter := none, created_datetime := none, updated_datetime := none,
    attachments := [], submission_sets := [sampleSet, supportSet],
    distance := none }

/-- Sample data: the same place with a null stored geometry. -/
def nullGeomPlace : PlaceRec :=
  { pk := 1, visible := true, geometry := none, dataset_id := 5,
    blob := [("notes", JVal.str "hi")],
    submitter := none, created_datetime := none, updated_datetime := none,
    attachments := [], submission_sets := [sampleSet, supportSet],
    distance := none }

/-- Keys of the empty dictionary. -/
@[simp] theorem akeys_nil {α : Type} : akeys ([] : AList α) = [] := rfl

/-- Keys of a dictionary, head case. -/
@[simp] theorem akeys_cons {α : Type} (kv : String × α) (d : AList α) :
    akeys (kv :: d) = kv.1 :: akeys d := rfl

/-- Keys of an appended dictionary. -/
@[simp] theorem akeys_append {α : Type} (a b : AList α) :
    akeys (a ++ b) = akeys a ++ akeys b := by
  simp [akeys]

/-- A key outside the key list reads as absent. -/
theorem alookup_of_not_mem {α : Type} {d : AList α} {k : String}
    (h : ¬ k ∈ akeys d) : alookup d k = none := by
  induction d with
  | nil => rfl
  | cons kv rest ih =>
    simp only [akeys_cons, List.mem_cons, not_or] at h
    have hne : ¬ kv.1 = k := fun he => h.1 he.symm
    simp only [alookup, if_neg hne]
    exact ih h.2

/-- Erasing cannot introduce keys. -/
theorem mem_akeys_aerase {α : Type} {d : AList α} {k k2 : String}
    (h : k2 ∈ akeys (aerase d k)) : k2 ∈ akeys d := by
  induction d with
  | nil => simp [aerase] at h
  | cons kv rest ih =>
    by_cases he : kv.1 = k
    · simp only [aerase, if_pos he] at h
      exact List.mem_cons_of_mem _ (ih h)
    · simp only [aerase, if_neg he, akeys_cons, List.mem_cons] at h
      rcases h with h | h
      · exact List.mem_cons.2 (Or.inl h)
      · exact List.mem_cons_of_mem _ (ih h)

/-- Erasing a key removes it from the key list. -/
theorem not_mem_akeys_aerase_self {α : Type} (d : AList α) (k : String) :
    ¬ k ∈ akeys (aerase d k) := by
  induction d with
  | nil => simp [aerase]
  | cons kv rest ih =>
    by_cases he : kv.1 = k
    · simpa [aerase, if_pos he] using ih
    · simp only [aerase, if_neg he, akeys_cons, List.mem_cons, not_or]
      exact ⟨fun hk => he hk.symm, ih⟩

/-- Keys distinct from the erased one survive erasure. -/
theorem mem_akeys_aerase_of_ne {α : Type} {d : AList α} {k k2 : String}
    (h : k2 ≠ k) (hm : k2 ∈ akeys d) : k2 ∈ akeys (aerase d k) := by
  induction d with
  | nil => simp at hm
  | cons kv rest ih =>
    simp only [akeys_cons, List.mem_cons] at hm
    by_cases he : kv.1 = k
    · simp only [aerase, if_pos he]
      rcases hm with h1 | h1
      · exact absurd (h1.trans he) h
      · exact ih h1
    · simp only [aerase, if_neg he, akeys_cons, List.mem_cons]
      rcases hm with h1 | h1
      · exact Or.inl h1
      · exact Or.inr (ih h1)

/-- Erasing an absent key is the identity. -/
theorem aerase_of_not_mem {α : Type} {d : AList α} {k : String}
    (h : ¬ k ∈ akeys d) : aerase d k = d := by
  induction d with
  | nil => rfl
  | cons kv rest ih =>
    simp only [akeys_cons, List.mem_cons, not_or] at h
    have hne : ¬ kv.1 = k := fun he => h.1 he.symm
    simp only [aerase, if_neg hne]
    rw [ih h.2]

/-- Erasure distributes over append. -/
theorem aerase_append {α : Type} (a b : AList α) (k : String) :
    aerase (a ++ b) k = aerase a k ++ aerase b k := by
  induction a with
  | nil => rfl
  | cons kv rest ih =>
    by_cases he : kv.1 = k
    · simp [aerase, if_pos he, ih]
    · simp [aerase, if_neg he, ih]

/-- Erasing one key leaves reads of other keys unchanged. -/
theorem alookup_aerase_ne {α : Type} {d : AList α} {k k2 : String}
    (h : k2 ≠ k) : alookup (aerase d k) k2 = alookup d k2 := by
  induction d with
  | nil => rfl
  | cons kv rest ih =>
    by_cases he : kv.1 = k
    · have hne : ¬ kv.1 = k2 := fun hx => h ((hx.symm.trans he).symm ▸ rfl)
      simp only [aerase, if_pos he, alookup, if_neg hne]
      exact ih
    · by_cases h2 : kv.1 = k2
      · simp only [aerase, if_neg he, alookup, if_pos h2]
      · simp only [aerase, if_neg he, alookup, if_neg h2]
        exact ih

/-- Writing a key then reading it gives the written value. -/
theorem alookup_ainsert_self {α : Type} (d : AList α) (k : String) (v : α) :
    alookup (ainsert d k v) k = some v := by
  induction d with
  | nil => simp [ainsert, alookup]
  | cons kv rest ih =>
    by_cases he : kv.1 = k
    · simp [ainsert, if_pos he, alookup]
    · simp only [ainsert, if_neg he, alookup, if_neg he]
      exact ih

/-- Writing one key leaves reads of other keys unchanged. -/
theorem alookup_ainsert_ne {α : Type} {d : AList α} {k k2 : String} (v : α)
    (h : k2 ≠ k) : alookup (ainsert d k v) k2 = alookup d k2 := by
  induction d with
  | nil =>
    have hne : ¬ k = k2 := fun hx => h hx.symm
    simp [ainsert, alookup, if_neg hne]
  | cons kv rest ih =>
    by_cases he : kv.1 = k
    · have hne1 : ¬ k = k2 := fun hx => h hx.symm
      have hne2 : ¬ kv.1 = k2 := fun hx => h (hx.symm.trans he)
      simp only [ainsert, if_pos he, alookup, if_neg hne1, if_neg hne2]
      exact alookup_aerase_ne h
    · by_cases h2 : kv.1 = k2
      · simp only [ainsert, if_neg he, alookup, if_pos h2]
      · simp only [ainsert, if_neg he, alookup, if_neg h2]
        exact ih

/-- A key of a written dictionary is an old key or the written one. -/
theorem mem_akeys_ainsert {α : Type} {d : AList α} {k k2 : String} {v : α}
    (h : k2 ∈ akeys (ainsert d k v)) : k2 ∈ akeys d ∨ k2 = k := by
  induction d with
  | nil => simpa [ainsert] using h
  | cons kv rest ih =>
    by_cases he : kv.1 = k
    · simp only [ainsert, if_pos he, akeys_cons, List.mem_cons] at h
      rcases h with h | h
      · exact Or.inr h
      · exact Or.inl (List.mem_cons_of_mem _ (mem_akeys_aerase h))
    · simp only [ainsert, if_neg he, akeys_cons, List.mem_cons] at h
      rcases h with h | h
      · exact Or.inl (List.mem_cons.2 (Or.inl h))
      · rcases ih h with h2 | h2
        · exact Or.inl (List.mem_cons_of_mem _ h2)
        · exact Or.inr h2

/-- The written key is a key of the result. -/
theorem mem_akeys_ainsert_self {α : Type} (d : AList α) (k : String) (v : α) :
    k ∈ akeys (ainsert d k v) := by
  induction d with
  | nil => simp [ainsert]
  | cons kv rest ih =>
    by_cases he : kv.1 = k
    · simp [ainsert, if_pos he]
    · simp only [ainsert, if_neg he, akeys_cons, List.mem_cons]
      exact Or.inr ih

/-- Old keys survive a write. -/
theorem mem_akeys_ainsert_of_mem {α : Type} {d : AList α} {k k2 : String}
    (v : α) (h : k2 ∈ akeys d) : k2 ∈ akeys (ainsert d k v) := by
  by_cases hk : k2 = k
  · exact hk ▸ mem_akeys_ainsert_self d k v
  · induction d with
    | nil => simp at h
    | cons kv rest ih =>
      simp only [akeys_cons, List.mem_cons] at h
      by_cases he : kv.1 = k
      · simp only [ainsert, if_pos he, akeys_cons, List.mem_cons]
        rcases h with h1 | h1
        · exact absurd (h1.trans he) hk
        · exact Or.inr (mem_akeys_aerase_of_ne hk h1)
      · simp only [ainsert, if_neg he, akeys_cons, List.mem_cons]
        rcases h with h1 | h1
        · exact Or.inl h1
        · exact Or.inr (ih h1)

/-- Writing an absent key appends its binding. -/
theorem ainsert_of_not_mem {α : Type} {d : AList α} {k : String} (v : α)
    (h : ¬ k ∈ akeys d) : ainsert d k v = d ++ [(k, v)] := by
  induction d with
  | nil => rfl
  | cons kv rest ih =>
    simp only [akeys_cons, List.mem_cons, not_or] at h
    have hne : ¬ kv.1 = k := fun he => h.1 he.symm
    simp only [ainsert, if_neg hne]
    rw [ih h.2]
    rfl

/-- Update in the empty direction. -/
@[simp] theorem aupdate_nil {α : Type} (d : AList α) : aupdate d [] = d := rfl

/-- Update unfolding, head case. -/
@[simp] theorem aupdate_cons {α : Type} (d : AList α) (kv : String × α)
    (b : AList α) : aupdate d (kv :: b) = aupdate (ainsert d kv.1 kv.2) b := rfl

/-- A key of an updated dictionary comes from one of the two sides. -/
theorem mem_akeys_aupdate {α : Type} {a b : AList α} {k : String}
    (h : k ∈ akeys (aupdate a b)) : k ∈ akeys a ∨ k ∈ akeys b := by
  induction b generalizing a with
  | nil => exact Or.inl h
  | cons kv rest ih =>
    rcases ih (by simpa using h) with h2 | h2
    · rcases mem_akeys_ainsert h2 with h3 | h3
      · exact Or.inl h3
      · exact Or.inr (by simp [h3])
    · exact Or.inr (List.mem_cons_of_mem _ h2)

/-- Updating with keys not read leaves the read unchanged. -/
theorem alookup_aupdate_not_mem {α : Type} {a b : AList α} {k : String}
    (h : ¬ k ∈ akeys b) : alookup (aupdate a b) k = alookup a k := by
  induction b generalizing a with
  | nil => rfl
  | cons kv rest ih =>
    simp only [akeys_cons, List.mem_cons, not_or] at h
    rw [aupdate_cons, ih h.2, alookup_ainsert_ne _ h.1]

/-- A binding of the right side of an update is read back from the result,
provided the right side has unique keys. -/
theorem alookup_aupdate_of_lookup {α : Type} {a b : AList α} {k : String}
    {v : α} (hb : (akeys b).Nodup) (h : alookup b k = some v) :
    alookup (aupdate a b) k = some v := by
  induction b generalizing a with
  | nil => simp [alookup] at h
  | cons kv rest ih =>
    simp only [akeys_cons, List.nodup_cons] at hb
    by_cases he : kv.1 = k
    · simp only [alookup, if_pos he] at h
      rw [aupdate_cons, alookup_aupdate_not_mem (he ▸ hb.1)]
      have hv : ainsert a kv.1 kv.2 = ainsert a k v := by
        rw [he, Option.some.inj h]
      rw [hv]
      exact alookup_ainsert_self a k v
    · simp only [alookup, if_neg he] at h
      rw [aupdate_cons]
      exact ih hb.2 h

/-- Updating with fresh unique keys is an append. -/
theorem aupdate_append_of_disjoint {α : Type} {a b : AList α}
    (hb : (akeys b).Nodup) (hd : ∀ k, k ∈ akeys b → ¬ k ∈ akeys a) :
    aupdate a b = a ++ b := by
  induction b generalizing a with
  | nil => simp
  | cons kv rest ih =>
    simp only [akeys_cons, List.nodup_cons] at hb
    rw [aupdate_cons, ainsert_of_not_mem _ (hd kv.1 (by simp))]
    rw [ih hb.2 (fun k hk => by
      simp only [akeys_append, List.mem_append, akeys_cons, akeys_nil, not_or]
      refine ⟨hd k (by simp [hk]), ?hsing⟩
      intro hmem
      have hkk : k = kv.1 := by simpa using hmem
      exact hb.1 (hkk ▸ hk))]
    simp

/-- Reading past a block without the key. -/
theorem alookup_append_right {α : Type} {a : AList α} (b : AList α)
    {k : String} (h : ¬ k ∈ akeys a) : alookup (a ++ b) k = alookup b k := by
  induction a with
  | nil => rfl
  | cons kv rest ih =>
    simp only [akeys_cons, List.mem_cons, not_or] at h
    have hne : ¬ kv.1 = k := fun he => h.1 he.symm
    simp only [List.cons_append, alookup, if_neg hne]
    exact ih h.2

/-- Erasing the key just written erases it from the original too. -/
theorem aerase_ainsert_self {α : Type} (d : AList α) (k : String) (v : α) :
    aerase (ainsert d k v) k = aerase d k := by
  induction d with
  | nil => simp [ainsert, aerase]
  | cons kv rest ih =>
    by_cases he : kv.1 = k
    · simp only [ainsert, if_pos he]
      have h1 : aerase ((k, v) :: aerase rest k) k = aerase (aerase rest k) k := by
        simp [aerase]
      have h2 : aerase (kv :: rest) k = aerase rest k := by
        simp [aerase, if_pos he]
      rw [h1, aerase_of_not_mem (not_mem_akeys_aerase_self rest k), h2]
    · simp only [ainsert, if_neg he, aerase, if_neg he]
      rw [ih]

/-- A unique binding satisfying the filter is read back from the filtered
dictionary. -/
theorem alookup_filter_of_nodup {α : Type} {d : AList α} {k : String} {v : α}
    {p : String × α → Bool} (hd : (akeys d).Nodup) (h : alookup d k = some v)
    (hp : p (k, v) = true) : alookup (d.filter p) k = some v := by
  induction d with
  | nil => simp [alookup] at h
  | cons kv rest ih =>
    simp only [akeys_cons, List.nodup_cons] at hd
    by_cases he : kv.1 = k
    · simp only [alookup, if_pos he] at h
      have hkv : kv = (k, v) := by
        cases kv
        simp_all
      rw [List.filter_cons, hkv, if_pos (by simpa using hp)]
      simp [alookup]
    · simp only [alookup, if_neg he] at h
      rw [List.filter_cons]
      by_cases hq : p kv = true
      · rw [if_pos (by simpa using hq)]
        simp only [alookup, if_neg he]
        exact ih hd.2 h
      · rw [if_neg (by simpa using hq)]
        exact ih hd.2 h

/-- The routing loop on a unique-keyed input disjoint from both accumulators
partitions the input by the known-field test, preserving input order. -/
theorem route_fields_eq (kf : String → Bool) (acc : Dict × Dict) (d : Dict)
    (hd : (akeys d).Nodup)
    (h1 : ∀ k, k ∈ akeys d → ¬ k ∈ akeys acc.1)
    (h2 : ∀ k, k ∈ akeys d → ¬ k ∈ akeys acc.2) :
    route_fields kf acc d =
      (acc.1 ++ d.filter (fun kv => kf kv.1),
       acc.2 ++ d.filter (fun kv => !kf kv.1)) := by
  induction d generalizing acc with
  | nil => simp [route_fields]
  | cons kv rest ih =>
    simp only [akeys_cons, List.nodup_cons] at hd
    by_cases hk : kf kv.1 = true
    · simp only [route_fields, if_pos hk]
      rw [ih (ainsert acc.1 kv.1 kv.2, acc.2) hd.2
        (fun k hkm hmem => by
          rcases mem_akeys_ainsert hmem with hx | hx
          · exact h1 k (List.mem_cons_of_mem _ hkm) hx
          · exact hd.1 (hx ▸ hkm))
        (fun k hkm => h2 k (List.mem_cons_of_mem _ hkm))]
      rw [ainsert_of_not_mem _ (h1 kv.1 (by simp))]
      rw [List.filter_cons, List.filter_cons, if_pos (by simpa using hk),
        if_neg (by simp [hk])]
      simp
    · simp only [route_fields, if_neg hk]
      rw [ih (acc.1, ainsert acc.2 kv.1 kv.2) hd.2
        (fun k hkm => h1 k (List.mem_cons_of_mem _ hkm))
        (fun k hkm hmem => by
          rcases mem_akeys_ainsert hmem with hx | hx
          · exact h2 k (List.mem_cons_of_mem _ hkm) hx
          · exact hd.1 (hx ▸ hkm))]
      rw [ainsert_of_not_mem _ (h2 kv.1 (by simp))]
      rw [List.filter_cons, List.filter_cons, if_neg (by simpa using hk),
        if_pos (by simp [hk])]
      simp

/-- Keys of the structured half of the routing loop come from the accumulator
or the input. -/
theorem mem_akeys_route_left (kf : String → Bool) (acc : Dict × Dict)
    (d : Dict) {k : String} (h : k ∈ akeys (route_fields kf acc d).1) :
    k ∈ akeys acc.1 ∨ k ∈ akeys d := by
  induction d generalizing acc with
  | nil => exact Or.inl h
  | cons kv rest ih =>
    simp only [route_fields] at h
    by_cases hk : kf kv.1 = true
    · rw [if_pos hk] at h
      rcases ih _ h with h1 | h1
      · rcases mem_akeys_ainsert h1 with h2 | h2
        · exact Or.inl h2
        · exact Or.inr (by simp [h2])
      · exact Or.inr (List.mem_cons_of_mem _ h1)
    · rw [if_neg hk] at h
      rcases ih _ h with h1 | h1
      · exact Or.inl h1
      · exact Or.inr (List.mem_cons_of_mem _ h1)

/-- The back-fill loop on an empty field list. -/
@[simp] theorem backfill_nil (dc : Dict) : backfill_defaults [] dc = dc := rfl

/-- The back-fill loop, head case. -/
@[simp] theorem backfill_cons (kv : String × FieldSpec) (bf : AList FieldSpec)
    (dc : Dict) :
    backfill_defaults (kv :: bf) dc =
      backfill_defaults bf
        (if !kv.2.read_only && !((akeys dc).contains kv.1) then
          ainsert dc kv.1 kv.2.default
        else dc) := rfl

/-- Back-filling never rewrites a key that is already present. -/
theorem alookup_backfill_of_mem {bf : AList FieldSpec} {dc : Dict} {k : String}
    (h : k ∈ akeys dc) :
    alookup (backfill_defaults bf dc) k = alookup dc k := by
  induction bf generalizing dc with
  | nil => rfl
  | cons kv rest ih =>
    rw [backfill_cons]
    by_cases hc : (!kv.2.read_only && !((akeys dc).contains kv.1)) = true
    · rw [if_pos hc]
      have hne : k ≠ kv.1 := by
        intro he
        simp only [Bool.and_eq_true, Bool.not_eq_true'] at hc
        rw [← he] at hc
        simp [h] at hc
      rw [ih (mem_akeys_ainsert_of_mem _ h), alookup_ainsert_ne _ hne]
    · rw [if_neg hc]
      exact ih h

/-- Back-filling only touches declared field names. -/
theorem alookup_backfill_not_mem_bf {bf : AList FieldSpec} {dc : Dict}
    {k : String} (h : ¬ k ∈ akeys bf) :
    alookup (backfill_defaults bf dc) k = alookup dc k := by
  induction bf generalizing dc with
  | nil => rfl
  | cons kv rest ih =>
    simp only [akeys_cons, List.mem_cons, not_or] at h
    rw [backfill_cons]
    by_cases hc : (!kv.2.read_only && !((akeys dc).contains kv.1)) = true
    · rw [if_pos hc, ih h.2, alookup_ainsert_ne _ h.1]
    · rw [if_neg hc]
      exact ih h.2

/-- A writable declared field absent from the structured copy gets exactly
its declared default from the back-fill loop. -/
theorem alookup_backfill_hits {bf : AList FieldSpec} {dc : Dict} {k : String}
    {fs : FieldSpec} (hnd : (akeys bf).Nodup) (hfs : alookup bf k = some fs)
    (hro : fs.read_only = false) (habs : ¬ k ∈ akeys dc) :
    alookup (backfill_defaults bf dc) k = some fs.default := by
  induction bf generalizing dc with
  | nil => simp [alookup] at hfs
  | cons kv rest ih =>
    simp only [akeys_cons, List.nodup_cons] at hnd
    rw [backfill_cons]
    by_cases he : kv.1 = k
    · simp only [alookup, if_pos he] at hfs
      have hkv : kv.2 = fs := Option.some.inj hfs
      have hcond : (!kv.2.read_only && !((akeys dc).contains kv.1)) = true := by
        rw [hkv, hro, he]
        simp [habs]
      rw [if_pos hcond, alookup_backfill_not_mem_bf (he ▸ hnd.1)]
      rw [he, hkv]
      exact alookup_ainsert_self dc k fs.default
    · simp only [alookup, if_neg he] at hfs
      by_cases hc : (!kv.2.read_only && !((akeys dc).contains kv.1)) = true
      · rw [if_pos hc]
        refine ih hnd.2 hfs ?_
        intro hmem
        rcases mem_akeys_ainsert hmem with h1 | h1
        · exact habs h1
        · exact he h1.symm
      · rw [if_neg hc]
        exact ih hnd.2 hfs habs

/-- C2: Privacy redaction.  For every structured-field set (whose field names,
as in every `get_uncached_data` document of the program, do not carry the
reserved prefix) and every attribute blob, the flattened read document with
include_private off contains no key starting with `private`, and with
include_private on every blob key is present in the output with its value. -/
theorem privacy_redaction (S B : Dict)
    (hS : ∀ k, k ∈ akeys S → k.startsWith "private" = false)
    (hB : (akeys B).Nodup) :
    (∀ k, k ∈ akeys (flatten false S B) → k.startsWith "private" = false)
    ∧ (∀ k v, alookup B k = some v → alookup (flatten true S B) k = some v) := by
  have hlook : alookup (ainsert S "data" (JVal.obj B)) "data" = some (JVal.obj B) :=
    alookup_ainsert_self S "data" (JVal.obj B)
  have herase : aerase (ainsert S "data" (JVal.obj B)) "data" = aerase S "data" :=
    aerase_ainsert_self S "data" (JVal.obj B)
  constructor
  · intro k hk
    simp only [flatten, explode_data_blob, hlook, herase, json_loads,
      Bool.false_eq_true, if_false] at hk
    rcases mem_akeys_aupdate hk with h | h
    · exact hS k (mem_akeys_aerase h)
    · simp only [akeys, List.mem_map] at h
      obtain ⟨kv, hkv, hk1⟩ := h
      have := (List.mem_filter.1 hkv).2
      rw [← hk1]
      simpa using this
  · intro k v h
    simp only [flatten, explode_data_blob, hlook, herase, json_loads, if_true]
    exact alookup_aupdate_of_lookup hB h

/-- Witness for C2 at a concrete structured set and blob. -/
theorem privacy_redaction_witness :
    ((∀ k, k ∈ akeys ([("notes", JVal.str "hi")] : Dict) →
        k.startsWith "private" = false)
     ∧ (akeys ([("private_phone", JVal.str "555")] : Dict)).Nodup)
    ∧ ((∀ k, k ∈ akeys (flatten false [("notes", JVal.str "hi")]
          [("private_phone", JVal.str "555")]) → k.startsWith "private" = false)
       ∧ (∀ k v, alookup ([("private_phone", JVal.str "555")] : Dict) k = some v →
          alookup (flatten true [("notes", JVal.str "hi")]
            [("private_phone", JVal.str "555")]) k = some v)) :=
  have h1 : ∀ k, k ∈ akeys ([("notes", JVal.str "hi")] : Dict) →
      k.startsWith "private" = false := by
    intro k hk
    simp only [akeys, List.map, List.mem_singleton] at hk
    subst hk
    decide
  have h2 : (akeys ([("private_phone", JVal.str "555")] : Dict)).Nodup := by
    decide
  ⟨⟨h1, h2⟩, privacy_redaction [("notes", JVal.str "hi")]
    [("private_phone", JVal.str "555")] h1 h2⟩

/-- C3: Round-trip law.  Splitting the flattening of a structured set `S` and
blob `B` with disjoint unique keys and no reserved `data` key, against the
known field names of `S` and an empty defaults mapping, returns exactly
`(S, B)`. -/
theorem split_flatten_roundtrip (S B : Dict)
    (hS : (akeys S).Nodup) (hB : (akeys B).Nodup)
    (hdisj : ∀ k, k ∈ akeys B → ¬ k ∈ akeys S)
    (hSd : ¬ "data" ∈ akeys S) (hBd : ¬ "data" ∈ akeys B) :
    split_structured (restore_fields ("data" :: akeys S) [] false
      (flatten true S B)) = S
    ∧ split_blob (restore_fields ("data" :: akeys S) [] false
      (flatten true S B)) = B := by
  have hflat : flatten true S B = S ++ B := by
    simp only [flatten, explode_data_blob, alookup_ainsert_self,
      aerase_ainsert_self, json_loads, if_true]
    rw [aerase_of_not_mem hSd]
    exact aupdate_append_of_disjoint hB hdisj
  have hnodup : (akeys (S ++ B)).Nodup := by
    rw [akeys_append]
    exact List.Nodup.append hS hB (fun a ha hb => hdisj a hb ha)
  have hSf : S.filter (fun kv => known_field ("data" :: akeys S) [] kv.1) = S := by
    rw [List.filter_eq_self]
    intro kv hkv
    have hmem : kv.1 ∈ akeys S := List.mem_map_of_mem Prod.fst hkv
    have hne : kv.1 ≠ "data" := fun he => hSd (he ▸ hmem)
    simp [known_field, hmem, hne]
  have hBf : B.filter (fun kv => known_field ("data" :: akeys S) [] kv.1) = [] := by
    rw [List.filter_eq_nil_iff]
    intro kv hkv
    have hmem : kv.1 ∈ akeys B := List.mem_map_of_mem Prod.fst hkv
    have h1 : ¬ kv.1 ∈ akeys S := hdisj kv.1 hmem
    have h2 : kv.1 ≠ "data" := fun he => hBd (he ▸ hmem)
    simp [known_field, h1, h2]
  have hSfn : S.filter (fun kv => !known_field ("data" :: akeys S) [] kv.1) = [] := by
    rw [List.filter_eq_nil_iff]
    intro kv hkv
    have hmem : kv.1 ∈ akeys S := List.mem_map_of_mem Prod.fst hkv
    have hne : kv.1 ≠ "data" := fun he => hSd (he ▸ hmem)
    simp [known_field, hmem, hne]
  have hBfn : B.filter (fun kv => !known_field ("data" :: akeys S) [] kv.1) = B := by
    rw [List.filter_eq_self]
    intro kv hkv
    have hmem : kv.1 ∈ akeys B := List.mem_map_of_mem Prod.fst hkv
    have h1 : ¬ kv.1 ∈ akeys S := hdisj kv.1 hmem
    have h2 : kv.1 ≠ "data" := fun he => hBd (he ▸ hmem)
    simp [known_field, h1, h2]
  have hroute := route_fields_eq (known_field ("data" :: akeys S) []) ([], [])
    (S ++ B) hnodup (by simp) (by simp)
  rw [List.filter_append, List.filter_append, hSf, hBf, hSfn, hBfn] at hroute
  simp only [List.nil_append, List.append_nil] at hroute
  have hout : restore_fields ("data" :: akeys S) [] false (flatten true S B) =
      S ++ [("data", JVal.obj B)] := by
    simp only [restore_fields, hflat, hroute, backfill_nil,
      Bool.false_eq_true, if_false]
    exact ainsert_of_not_mem _ hSd
  constructor
  · rw [hout]
    simp only [split_structured, aerase_append]
    rw [aerase_of_not_mem hSd]
    simp [aerase]
  · rw [hout]
    simp only [split_blob]
    rw [alookup_append_right _ hSd]
    simp [alookup, json_loads]

/-- Witness for C3 at a concrete structured set and blob. -/
theorem split_flatten_roundtrip_witness :
    ((akeys ([("notes", JVal.str "hi")] : Dict)).Nodup
     ∧ (akeys ([("x", JVal.num 1)] : Dict)).Nodup
     ∧ (∀ k, k ∈ akeys ([("x", JVal.num 1)] : Dict) →
        ¬ k ∈ akeys ([("notes", JVal.str "hi")] : Dict))
     ∧ ¬ "data" ∈ akeys ([("notes", JVal.str "hi")] : Dict)
     ∧ ¬ "data" ∈ akeys ([("x", JVal.num 1)] : Dict))
    ∧ (split_structured (restore_fields ("data" :: akeys [("notes", JVal.str "hi")])
        [] false (flatten true [("notes", JVal.str "hi")] [("x", JVal.num 1)])) =
        [("notes", JVal.str "hi")]
       ∧ split_blob (restore_fields ("data" :: akeys [("notes", JVal.str "hi")])
        [] false (flatten true [("notes", JVal.str "hi")] [("x", JVal.num 1)])) =
        [("x", JVal.num 1)]) :=
  have h1 : (akeys ([("notes", JVal.str "hi")] : Dict)).Nodup := by decide
  have h2 : (akeys ([("x", JVal.num 1)] : Dict)).Nodup := by decide
  have h3 : ∀ k, k ∈ akeys ([("x", JVal.num 1)] : Dict) →
      ¬ k ∈ akeys ([("notes", JVal.str "hi")] : Dict) := by
    intro k hk
    simp only [akeys, List.map, List.mem_singleton] at hk
    subst hk
    decide
  have h4 : ¬ "data" ∈ akeys ([("notes", JVal.str "hi")] : Dict) := by decide
  have h5 : ¬ "data" ∈ akeys ([("x", JVal.num 1)] : Dict) := by decide
  ⟨⟨h1, h2, h3, h4, h5⟩,
   split_flatten_roundtrip [("notes", JVal.str "hi")] [("x", JVal.num 1)]
     h1 h2 h3 h4 h5⟩

/-- C8: Reserved `data` key on split.  A key literally named `data` in the
input document is never matched as a structured field name: its value is
always routed into the attribute blob, and the structured half never carries
it. -/
theorem reserved_data_key_split (model_fields : List String)
    (base_fields : AList FieldSpec) (partialUpdate : Bool) (d : Dict) (v : JVal)
    (hd : (akeys d).Nodup) (hv : alookup d "data" = some v) :
    alookup (split_blob (restore_fields model_fields base_fields partialUpdate d))
      "data" = some v
    ∧ ¬ "data" ∈ akeys (split_structured
        (restore_fields model_fields base_fields partialUpdate d)) := by
  have hroute := route_fields_eq (known_field model_fields base_fields) ([], [])
    d hd (by simp) (by simp)
  have hkfdata : known_field model_fields base_fields "data" = false := by
    simp [known_field]
  have hblob : alookup (route_fields (known_field model_fields base_fields)
      ([], []) d).2 "data" = some v := by
    rw [hroute]
    simp only [List.nil_append]
    exact alookup_filter_of_nodup hd hv (by simp [hkfdata])
  constructor
  · simp only [restore_fields]
    by_cases hp : partialUpdate = true
    · rw [if_pos hp]
      simp only [split_blob, alookup_ainsert_self, json_loads]
      exact hblob
    · rw [if_neg hp]
      simp only [split_blob]
      rw [alookup_backfill_of_mem (mem_akeys_ainsert_self _ _ _),
        alookup_ainsert_self]
      simp only [json_loads]
      exact hblob
  · exact not_mem_akeys_aerase_self _ _

/-- Witness for C8 at a concrete input document. -/
theorem reserved_data_key_split_witness :
    ((akeys ([("id", JVal.num 7), ("data", JVal.str "x")] : Dict)).Nodup
     ∧ alookup ([("id", JVal.num 7), ("data", JVal.str "x")] : Dict) "data" =
        some (JVal.str "x"))
    ∧ (alookup (split_blob (restore_fields ["id"] [] false
        [("id", JVal.num 7), ("data", JVal.str "x")])) "data" = some (JVal.str "x")
       ∧ ¬ "data" ∈ akeys (split_structured (restore_fields ["id"] [] false
        [("id", JVal.num 7), ("data", JVal.str "x")]))) :=
  have h1 : (akeys ([("id", JVal.num 7), ("data", JVal.str "x")] : Dict)).Nodup := by
    decide
  have h2 : alookup ([("id", JVal.num 7), ("data", JVal.str "x")] : Dict) "data" =
      some (JVal.str "x") := by
    simp [alookup]
  ⟨⟨h1, h2⟩, reserved_data_key_split ["id"] [] false
    [("id", JVal.num 7), ("data", JVal.str "x")] (JVal.str "x") h1 h2⟩

/-- C9: Default back-fill on full writes.  When the operation is not a partial
update, a writable declared field absent from the input receives exactly its
declared default in the structured output. -/
theorem default_backfill_on_full_write (model_fields : List String)
    (base_fields : AList FieldSpec) (d : Dict) (name : String) (fs : FieldSpec)
    (hbf : (akeys base_fields).Nodup)
    (hfs : alookup base_fields name = some fs)
    (hro : fs.read_only = false)
    (habs : ¬ name ∈ akeys d)
    (hnd : name ≠ "data") :
    alookup (restore_fields model_fields base_fields false d) name =
      some fs.default := by
  simp only [restore_fields, Bool.false_eq_true, if_false]
  apply alookup_backfill_hits hbf hfs hro
  intro hmem
  rcases mem_akeys_ainsert hmem with h1 | h1
  · rcases mem_akeys_route_left _ _ _ h1 with h2 | h2
    · simp at h2
    · exact habs h2
  · exact hnd h1

/-- Witness for C9 at a concrete omitted field. -/
theorem default_backfill_on_full_write_witness :
    ((akeys ([("visible", FieldSpec.mk false (JVal.boolean true))] :
        AList FieldSpec)).Nodup
     ∧ alookup ([("visible", FieldSpec.mk false (JVal.boolean true))] :
        AList FieldSpec) "visible" = some (FieldSpec.mk false (JVal.boolean true))
     ∧ (FieldSpec.mk false (JVal.boolean true)).read_only = false
     ∧ ¬ "visible" ∈ akeys ([("notes", JVal.str "hi")] : Dict)
     ∧ "visible" ≠ "data")
    ∧ alookup (restore_fields [] [("visible", FieldSpec.mk false (JVal.boolean true))]
        false [("notes", JVal.str "hi")]) "visible" =
      some (FieldSpec.mk false (JVal.boolean true)).default :=
  have h1 : (akeys ([("visible", FieldSpec.mk false (JVal.boolean true))] :
      AList FieldSpec)).Nodup := by decide
  have h2 : alookup ([("visible", FieldSpec.mk false (JVal.boolean true))] :
      AList FieldSpec) "visible" = some (FieldSpec.mk false (JVal.boolean true)) := by
    simp [alookup]
  have h3 : (FieldSpec.mk false (JVal.boolean true)).read_only = false := rfl
  have h4 : ¬ "visible" ∈ akeys ([("notes", JVal.str "hi")] : Dict) := by decide
  have h5 : "visible" ≠ "data" := by decide
  ⟨⟨h1, h2, h3, h4, h5⟩,
   default_backfill_on_full_write [] [("visible", FieldSpec.mk false (JVal.boolean true))]
     [("notes", JVal.str "hi")] "visible" (FieldSpec.mk false (JVal.boolean true))
     h1 h2 h3 h4 h5⟩

/-- Resolution returns the resolved-value function of the starting state. -/
theorem gcip_fst (w : World) (key : Key) (st : CacheState) :
    (get_cached_instance_params w key st).1 = resolvedValue w st key := by
  rcases hbuf : st.buffer key with _ | (_ | ps)
  · rcases hback : st.backend key with _ | ps
    · simp [get_cached_instance_params, resolvedValue, hbuf, hback]
    · simp [get_cached_instance_params, resolvedValue, hbuf, hback]
  · simp [get_cached_instance_params, resolvedValue, hbuf]
  · simp [get_cached_instance_params, resolvedValue, hbuf]

/-- Resolution leaves the resolved-value function unchanged. -/
theorem gcip_rv (w : World) (key : Key) (st : CacheState) :
    resolvedValue w (get_cached_instance_params w key st).2 = resolvedValue w st := by
  funext k
  by_cases hk : k = key
  · subst hk
    rcases hbuf : st.buffer k with _ | (_ | ps)
    · rcases hback : st.backend k with _ | ps
      · simp [get_cached_instance_params, resolvedValue, setBuffer, setBackend,
          hbuf, hback]
      · simp [get_cached_instance_params, resolvedValue, setBuffer, setBackend,
          hbuf, hback]
    · simp [get_cached_instance_params, resolvedValue, setBuffer, setBackend, hbuf]
    · simp [get_cached_instance_params, resolvedValue, setBuffer, setBackend, hbuf]
  · rcases hbuf : st.buffer key with _ | (_ | ps)
    · rcases hback : st.backend key with _ | ps
      · simp [get_cached_instance_params, resolvedValue, setBuffer, setBackend,
          hbuf, hback, hk]
      · simp [get_cached_instance_params, resolvedValue, setBuffer, setBackend,
          hbuf, hback, hk]
    · simp [get_cached_instance_params, resolvedValue, setBuffer, setBackend,
        hbuf, hk]
    · simp [get_cached_instance_params, resolvedValue, hbuf]

/-- The batched preload leaves the resolved-value function unchanged. -/
theorem getMany_rv (w : World) (keys : List Key) (st : CacheState) :
    resolvedValue w (cacheGetMany keys st) = resolvedValue w st := by
  funext k
  rcases hbuf : st.buffer k with _ | (_ | ps)
  · by_cases hm : k ∈ keys
    · rcases hback : st.backend k with _ | ps
      · simp [cacheGetMany, resolvedValue, hbuf, hback, hm]
      · simp [cacheGetMany, resolvedValue, hbuf, hback, hm]
    · simp [cacheGetMany, resolvedValue, hbuf, hm]
  · simp [cacheGetMany, resolvedValue, hbuf]
  · simp [cacheGetMany, resolvedValue, hbuf]

/-- get_url_kwargs runs the argument loop over the resolved parameters. -/
theorem guk_fst (w : World) (args : List String) (key : Key)
    (g : String → Option String) (st : CacheState) :
    (get_url_kwargs w args key g st).1 =
      buildUrlKwargs args (resolvedValue w st key) g := by
  simp only [get_url_kwargs, gcip_fst]

/-- get_url_kwargs leaves the resolved-value function unchanged. -/
theorem guk_rv (w : World) (args : List String) (key : Key)
    (g : String → Option String) (st : CacheState) :
    resolvedValue w (get_url_kwargs w args key g st).2 = resolvedValue w st := by
  simp only [get_url_kwargs]
  exact gcip_rv w key st

/-- A summary record is the pure record of the starting resolved values. -/
theorem summary_serializer_data_fst (w : World) (ss : SubmissionSetRec)
    (len : Nat) (st : CacheState) :
    (summary_serializer_data w ss len st).1 =
      summaryValPure (resolvedValue w st) ss len := by
  simp only [summary_serializer_data, summaryValPure, gcip_fst]

/-- A summary record leaves the resolved-value function unchanged. -/
theorem summary_serializer_data_rv (w : World) (ss : SubmissionSetRec)
    (len : Nat) (st : CacheState) :
    resolvedValue w (summary_serializer_data w ss len st).2 =
      resolvedValue w st := by
  simp only [summary_serializer_data]
  exact gcip_rv w (Kind.submissionSet, ss.pk) st

/-- The summary loop computes its pure form and preserves resolved values. -/
theorem build_summaries_sim (w : World) (fl : Flags) :
    ∀ (sets : List SubmissionSetRec) (acc : Dict) (st : CacheState),
    (build_summaries w fl sets acc st).1 =
      pureSummaries (resolvedValue w st) fl sets acc
    ∧ resolvedValue w (build_summaries w fl sets acc st).2 =
      resolvedValue w st := by
  intro sets
  induction sets with
  | nil => intro acc st; exact ⟨rfl, rfl⟩
  | cons ss rest ih =>
    intro acc st
    by_cases hlen : (filteredChildren fl ss).length = 0
    · simp only [build_summaries, pureSummaries, if_pos hlen]
      exact ih acc st
    · simp only [build_summaries, pureSummaries, if_neg hlen]
      have hf := summary_serializer_data_fst w ss (filteredChildren fl ss).length st
      have hr := summary_serializer_data_rv w ss (filteredChildren fl ss).length st
      rcases hrun : summary_serializer_data w ss (filteredChildren fl ss).length st
        with ⟨r, st2⟩
      rw [hrun] at hf hr
      dsimp only at hf hr
      rw [← hf]
      cases r with
      | error e => exact ⟨rfl, hr⟩
      | ok v =>
        have hrest := ih (ainsert acc ss.name v) st2
        refine ⟨?_, ?_⟩
        · rw [hrest.1, hr]
        · rw [hrest.2, hr]

/-- A submission document is the pure document of the starting resolved
values, and serializing it preserves them. -/
theorem submission_to_native_sim (w : World) (fl : Flags) (dsPk plPk ssPk : Nat)
    (sub : SubmissionRec) (st : CacheState) :
    (submission_to_native w fl dsPk plPk ssPk sub st).1 =
      subDocPure (resolvedValue w st) fl dsPk plPk ssPk sub
    ∧ resolvedValue w (submission_to_native w fl dsPk plPk ssPk sub st).2 =
      resolvedValue w st := by
  simp only [submission_to_native, subDocPure]
  have h1f := guk_fst w submissionArgs (Kind.submission, sub.pk) no_live_attrs st
  have h1r := guk_rv w submissionArgs (Kind.submission, sub.pk) no_live_attrs st
  rcases h1 : get_url_kwargs w submissionArgs (Kind.submission, sub.pk)
    no_live_attrs st with ⟨r1, st1⟩
  rw [h1] at h1f h1r
  dsimp only at h1f h1r
  rw [← h1f]
  cases r1 with
  | error e => exact ⟨rfl, h1r⟩
  | ok u =>
    dsimp only
    have h2f := guk_fst w datasetArgs (Kind.dataset, dsPk) no_live_attrs st1
    have h2r := guk_rv w datasetArgs (Kind.dataset, dsPk) no_live_attrs st1
    rcases h2 : get_url_kwargs w datasetArgs (Kind.dataset, dsPk)
      no_live_attrs st1 with ⟨r2, st2⟩
    rw [h2] at h2f h2r
    dsimp only at h2f h2r
    rw [h1r] at h2f h2r
    rw [← h2f]
    cases r2 with
    | error e => exact ⟨rfl, h2r⟩
    | ok dkw =>
      dsimp only
      have h3f := guk_fst w submissionSetArgs (Kind.submissionSet, ssPk)
        no_live_attrs st2
      have h3r := guk_rv w submissionSetArgs (Kind.submissionSet, ssPk)
        no_live_attrs st2
      rcases h3 : get_url_kwargs w submissionSetArgs (Kind.submissionSet, ssPk)
        no_live_attrs st2 with ⟨r3, st3⟩
      rw [h3] at h3f h3r
      dsimp only at h3f h3r
      rw [h2r] at h3f h3r
      rw [← h3f]
      cases r3 with
      | error e => exact ⟨rfl, h3r⟩
      | ok skw =>
        dsimp only
        have h4f := guk_fst w placeArgs (Kind.place, plPk) no_live_attrs st3
        have h4r := guk_rv w placeArgs (Kind.place, plPk) no_live_attrs st3
        rcases h4 : get_url_kwargs w placeArgs (Kind.place, plPk)
          no_live_attrs st3 with ⟨r4, st4⟩
        rw [h4] at h4f h4r
        dsimp only at h4f h4r
        rw [h3r] at h4f h4r
        rw [← h4f]
        cases r4 with
        | error e => exact ⟨rfl, h4r⟩
        | ok pkw => exact ⟨rfl, h4r⟩

/-- The submission-list loop computes its pure form and preserves resolved
values. -/
theorem serialize_submission_list_sim (w : World) (fl : Flags)
    (dsPk plPk ssPk : Nat) :
    ∀ (subs : List SubmissionRec) (st : CacheState),
    (serialize_submission_list w fl dsPk plPk ssPk subs st).1 =
      pureSubList (resolvedValue w st) fl dsPk plPk ssPk subs
    ∧ resolvedValue w (serialize_submission_list w fl dsPk plPk ssPk subs st).2 =
      resolvedValue w st := by
  intro subs
  induction subs with
  | nil => intro st; exact ⟨rfl, rfl⟩
  | cons sub rest ih =>
    intro st
    simp only [serialize_submission_list, pureSubList]
    have hf := (submission_to_native_sim w fl dsPk plPk ssPk sub st).1
    have hr := (submission_to_native_sim w fl dsPk plPk ssPk sub st).2
    rcases h1 : submission_to_native w fl dsPk plPk ssPk sub st with ⟨r1, st1⟩
    rw [h1] at hf hr
    dsimp only at hf hr
    rw [← hf]
    cases r1 with
    | error e => exact ⟨rfl, hr⟩
    | ok doc =>
      dsimp only
      have hf2 := (ih st1).1
      have hr2 := (ih st1).2
      rcases h2 : serialize_submission_list w fl dsPk plPk ssPk rest st1
        with ⟨r2, st2⟩
      rw [h2] at hf2 hr2
      dsimp only at hf2 hr2
      rw [hr] at hf2 hr2
      rw [← hf2]
      cases r2 with
      | error e => exact ⟨rfl, hr2⟩
      | ok docs => exact ⟨rfl, hr2⟩

/-- The detail loop computes its pure form and preserves resolved values. -/
theorem build_details_sim (w : World) (fl : Flags) (dsPk plPk : Nat) :
    ∀ (sets : List SubmissionSetRec) (acc : Dict) (st : CacheState),
    (build_details w fl dsPk plPk sets acc st).1 =
      pureDetails (resolvedValue w st) fl dsPk plPk sets acc
    ∧ resolvedValue w (build_details w fl dsPk plPk sets acc st).2 =
      resolvedValue w st := by
  intro sets
  induction sets with
  | nil => intro acc st; exact ⟨rfl, rfl⟩
  | cons ss rest ih =>
    intro acc st
    by_cases hlen : (filteredChildren fl ss).length = 0
    · simp only [build_details, pureDetails, if_pos hlen]
      exact ih acc st
    · simp only [build_details, pureDetails, if_neg hlen]
      have hf := (serialize_submission_list_sim w fl dsPk plPk ss.pk
        (filteredChildren fl ss) st).1
      have hr := (serialize_submission_list_sim w fl dsPk plPk ss.pk
        (filteredChildren fl ss) st).2
      rcases hrun : serialize_submission_list w fl dsPk plPk ss.pk
        (filteredChildren fl ss) st with ⟨r, st2⟩
      rw [hrun] at hf hr
      dsimp only at hf hr
      rw [← hf]
      cases r with
      | error e => exact ⟨rfl, hr⟩
      | ok docs =>
        have hrest := ih (ainsert acc ss.name (JVal.arr (docs.map JVal.obj))) st2
        refine ⟨?_, ?_⟩
        · rw [hrest.1, hr]
        · rw [hrest.2, hr]

/-- A rendered place document is the pure document of the starting resolved
values, and rendering it preserves them. -/
theorem place_to_native_sim (w : World) (fl : Flags) (p : PlaceRec)
    (st : CacheState) :
    (place_to_native w fl p st).1 = placeDocPure (resolvedValue w st) fl p
    ∧ resolvedValue w (place_to_native w fl p st).2 = resolvedValue w st := by
  simp only [place_to_native, placeDocPure]
  have h1f := guk_fst w placeArgs (Kind.place, p.pk) no_live_attrs st
  have h1r := guk_rv w placeArgs (Kind.place, p.pk) no_live_attrs st
  rcases h1 : get_url_kwargs w placeArgs (Kind.place, p.pk) no_live_attrs st
    with ⟨r1, st1⟩
  rw [h1] at h1f h1r
  dsimp only at h1f h1r
  rw [← h1f]
  cases r1 with
  | error e => exact ⟨rfl, h1r⟩
  | ok kw =>
    dsimp only
    by_cases hmode : fl.include_submissions = true
    · simp only [hmode, if_true]
      have hf := (build_details_sim w fl p.dataset_id p.pk p.submission_sets [] st1).1
      have hr := (build_details_sim w fl p.dataset_id p.pk p.submission_sets [] st1).2
      rcases h2 : get_detailed_submission_sets w fl p st1 with ⟨r2, st2⟩
      rw [show get_detailed_submission_sets w fl p st1 =
        build_details w fl p.dataset_id p.pk p.submission_sets [] st1 from rfl] at h2
      rw [h2] at hf hr
      dsimp only at hf hr
      rw [h1r] at hf hr
      rw [← hf]
      cases r2 with
      | error e => exact ⟨rfl, hr⟩
      | ok ssets => exact ⟨rfl, hr⟩
    · simp only [hmode, if_false]
      have hf := (build_summaries_sim w fl p.submission_sets [] st1).1
      have hr := (build_summaries_sim w fl p.submission_sets [] st1).2
      rcases h2 : get_submission_set_summaries w fl p st1 with ⟨r2, st2⟩
      rw [show get_submission_set_summaries w fl p st1 =
        build_summaries w fl p.submission_sets [] st1 from rfl] at h2
      rw [h2] at hf hr
      dsimp only at hf hr
      rw [h1r] at hf hr
      rw [← hf]
      cases r2 with
      | error e => exact ⟨rfl, hr⟩
      | ok ssets => exact ⟨rfl, hr⟩

/-- The member loop renders each place against the starting resolved values,
in input order, and preserves them. -/
theorem renderManyList_sim (w : World) (fl : Flags) :
    ∀ (places : List PlaceRec) (st : CacheState),
    (renderManyList w fl places st).1 =
      places.map (fun p => placeDocPure (resolvedValue w st) fl p)
    ∧ resolvedValue w (renderManyList w fl places st).2 = resolvedValue w st := by
  intro places
  induction places with
  | nil => intro st; exact ⟨rfl, rfl⟩
  | cons p rest ih =>
    intro st
    simp only [renderManyList, List.map]
    have hf := (place_to_native_sim w fl p st).1
    have hr := (place_to_native_sim w fl p st).2
    rcases h1 : renderOne w fl p st with ⟨doc, st1⟩
    rw [show renderOne w fl p st = place_to_native w fl p st from rfl] at h1
    rw [h1] at hf hr
    dsimp only at hf hr
    dsimp only
    have hrest := ih st1
    rcases h2 : renderManyList w fl rest st1 with ⟨docs, st2⟩
    rw [h2] at hrest
    dsimp only at hrest
    rw [hr] at hrest
    refine ⟨?_, hrest.2⟩
    rw [hf, hrest.1]

/-- C1: Batching equivalence.  For every finite collection of places, every
flags value, every world and every starting cache state, renderMany — the
batched cache preload followed by many=True serialization — yields exactly
the ordered list of renderOne documents of the members: warming the cache
never changes any rendered document. -/
theorem renderMany_matches_map_renderOne (w : World) (fl : Flags)
    (places : List PlaceRec) (st : CacheState) :
    (renderMany w fl places st).1 =
      places.map (fun p => (renderOne w fl p st).1) := by
  have h1 := (renderManyList_sim w fl places (preload_serialized_data_keys fl places st)).1
  have hrv : resolvedValue w (preload_serialized_data_keys fl places st) =
      resolvedValue w st :=
    getMany_rv w (place_collection_cache_keys fl places) st
  rw [hrv] at h1
  rw [show renderMany w fl places st =
    renderManyList w fl places (preload_serialized_data_keys fl places st) from rfl]
  rw [h1]
  refine List.map_congr_left (fun p _ => ?_)
  exact ((place_to_native_sim w fl p st).1).symm

/-- The batched preload is exactly one fetch. -/
theorem getMany_fetches (keys : List Key) (st : CacheState) :
    (cacheGetMany keys st).fetches = st.fetches + 1 := rfl

/-- Every preloaded key is buffered afterwards, hit or miss. -/
theorem getMany_buffered (keys : List Key) (st : CacheState) {k : Key}
    (h : k ∈ keys) : ((cacheGetMany keys st).buffer k).isSome = true := by
  rcases hbuf : st.buffer k with _ | x
  · simp [cacheGetMany, hbuf, h]
  · simp [cacheGetMany, hbuf]

/-- Resolution never evicts a buffered key. -/
theorem gcip_buffer_mono (w : World) (key : Key) (st : CacheState) {k : Key}
    (h : (st.buffer k).isSome = true) :
    (((get_cached_instance_params w key st).2).buffer k).isSome = true := by
  rcases hbuf : st.buffer key with _ | (_ | ps)
  · rcases hback : st.backend key with _ | ps
    · by_cases hk : k = key
      · simp [get_cached_instance_params, setBuffer, hbuf, hback, hk]
      · simp [get_cached_instance_params, setBuffer, hbuf, hback, hk, h]
    · by_cases hk : k = key
      · simp [get_cached_instance_params, setBuffer, hbuf, hback, hk]
      · simp [get_cached_instance_params, setBuffer, hbuf, hback, hk, h]
  · by_cases hk : k = key
    · simp [get_cached_instance_params, setBuffer, hbuf, hk]
    · simp [get_cached_instance_params, setBuffer, hbuf, hk, h]
  · simp [get_cached_instance_params, hbuf, h]

/-- Resolving a buffered key issues no cache round trip. -/
theorem gcip_fetches_hit (w : World) (key : Key) (st : CacheState)
    (h : (st.buffer key).isSome = true) :
    ((get_cached_instance_params w key st).2).fetches = st.fetches := by
  rcases hbuf : st.buffer key with _ | (_ | ps)
  · rw [hbuf] at h
    simp at h
  · simp [get_cached_instance_params, hbuf]
  · simp [get_cached_instance_params, hbuf]

/-- The summary loop on buffered set keys issues no fetch and keeps every
buffered key buffered. -/
theorem build_summaries_fetches (w : World) (fl : Flags) :
    ∀ (sets : List SubmissionSetRec) (acc : Dict) (st : CacheState),
    (∀ ss ∈ sets, (st.buffer ((Kind.submissionSet, ss.pk) : Key)).isSome = true) →
    (build_summaries w fl sets acc st).2.fetches = st.fetches
    ∧ ∀ k, (st.buffer k).isSome = true →
        (((build_summaries w fl sets acc st).2).buffer k).isSome = true := by
  intro sets
  induction sets with
  | nil => intro acc st _; exact ⟨rfl, fun k hk => hk⟩
  | cons ss rest ih =>
    intro acc st hbuf
    by_cases hlen : (filteredChildren fl ss).length = 0
    · simp only [build_summaries, if_pos hlen]
      exact ih acc st (fun s hs => hbuf s (List.mem_cons_of_mem _ hs))
    · simp only [build_summaries, if_neg hlen]
      have hst2 : (summary_serializer_data w ss (filteredChildren fl ss).length st).2 =
          (get_cached_instance_params w (Kind.submissionSet, ss.pk) st).2 := rfl
      have hfet : (summary_serializer_data w ss (filteredChildren fl ss).length st).2.fetches =
          st.fetches := by
        rw [hst2]
        exact gcip_fetches_hit w _ st (hbuf ss (by simp))
      have hmono : ∀ k, (st.buffer k).isSome = true →
          (((summary_serializer_data w ss (filteredChildren fl ss).length st).2).buffer k).isSome = true := by
        intro k hk
        rw [hst2]
        exact gcip_buffer_mono w _ st hk
      rcases hrun : summary_serializer_data w ss (filteredChildren fl ss).length st
        with ⟨r, st2⟩
      rw [hrun] at hfet hmono
      dsimp only at hfet hmono
      cases r with
      | error e => exact ⟨hfet, hmono⟩
      | ok v =>
        have hrest := ih (ainsert acc ss.name v) st2
          (fun s hs => hmono _ (hbuf s (List.mem_cons_of_mem _ hs)))
        refine ⟨?_, ?_⟩
        · rw [hrest.1, hfet]
        · exact fun k hk => hrest.2 k (hmono k hk)

/-- Rendering one place in summary mode against a cache whose buffer covers
its own key and its sets' keys issues no fetch and keeps every buffered key
buffered. -/
theorem place_to_native_fetches (w : World) (fl : Flags) (p : PlaceRec)
    (st : CacheState) (hmode : fl.include_submissions = false)
    (hp : (st.buffer ((Kind.place, p.pk) : Key)).isSome = true)
    (hss : ∀ ss ∈ p.submission_sets,
      (st.buffer ((Kind.submissionSet, ss.pk) : Key)).isSome = true) :
    (place_to_native w fl p st).2.fetches = st.fetches
    ∧ ∀ k, (st.buffer k).isSome = true →
        (((place_to_native w fl p st).2).buffer k).isSome = true := by
  simp only [place_to_native]
  have hst1 : (get_url_kwargs w placeArgs (Kind.place, p.pk) no_live_attrs st).2 =
      (get_cached_instance_params w (Kind.place, p.pk) st).2 := rfl
  have h1fet : (get_url_kwargs w placeArgs (Kind.place, p.pk) no_live_attrs st).2.fetches =
      st.fetches := by
    rw [hst1]
    exact gcip_fetches_hit w _ st hp
  have h1mono : ∀ k, (st.buffer k).isSome = true →
      (((get_url_kwargs w placeArgs (Kind.place, p.pk) no_live_attrs st).2).buffer k).isSome = true := by
    intro k hk
    rw [hst1]
    exact gcip_buffer_mono w _ st hk
  rcases h1 : get_url_kwargs w placeArgs (Kind.place, p.pk) no_live_attrs st
    with ⟨r1, st1⟩
  rw [h1] at h1fet h1mono
  dsimp only at h1fet h1mono
  cases r1 with
  | error e => exact ⟨h1fet, h1mono⟩
  | ok kw =>
    dsimp only
    rw [hmode]
    simp only [Bool.false_eq_true, if_false]
    have hsum := build_summaries_fetches w fl p.submission_sets [] st1
      (fun s hs => h1mono _ (hss s hs))
    rcases h2 : get_submission_set_summaries w fl p st1 with ⟨r2, st2⟩
    rw [show get_submission_set_summaries w fl p st1 =
      build_summaries w fl p.submission_sets [] st1 from rfl] at h2
    rw [h2] at hsum
    dsimp only at hsum
    cases r2 with
    | error e =>
      exact ⟨hsum.1.trans h1fet, fun k hk => hsum.2 k (h1mono k hk)⟩
    | ok ssets =>
      exact ⟨hsum.1.trans h1fet, fun k hk => hsum.2 k (h1mono k hk)⟩

/-- The member loop in summary mode issues no fetch when the buffer covers
every member's key and every member's sets' keys. -/
theorem renderManyList_fetches (w : World) (fl : Flags)
    (hmode : fl.include_submissions = false) :
    ∀ (places : List PlaceRec) (st : CacheState),
    (∀ p ∈ places, (st.buffer ((Kind.place, p.pk) : Key)).isSome = true
      ∧ ∀ ss ∈ p.submission_sets,
          (st.buffer ((Kind.submissionSet, ss.pk) : Key)).isSome = true) →
    (renderManyList w fl places st).2.fetches = st.fetches
    ∧ ∀ k, (st.buffer k).isSome = true →
        (((renderManyList w fl places st).2).buffer k).isSome = true := by
  intro places
  induction places with
  | nil => intro st _; exact ⟨rfl, fun k hk => hk⟩
  | cons p rest ih =>
    intro st hbuf
    simp only [renderManyList]
    have hphead := hbuf p (by simp)
    have hone := place_to_native_fetches w fl p st hmode hphead.1 hphead.2
    rcases h1 : renderOne w fl p st with ⟨doc, st1⟩
    rw [show renderOne w fl p st = place_to_native w fl p st from rfl] at h1
    rw [h1] at hone
    dsimp only at hone
    dsimp only
    have hrest := ih st1 (fun q hq =>
      ⟨hone.2 _ (hbuf q (List.mem_cons_of_mem _ hq)).1,
       fun ss hs => hone.2 _ ((hbuf q (List.mem_cons_of_mem _ hq)).2 ss hs)⟩)
    rcases h2 : renderManyList w fl rest st1 with ⟨docs, st2⟩
    rw [h2] at hrest
    dsimp only at hrest
    refine ⟨hrest.1.trans hone.1, fun k hk => hrest.2 k (hone.2 k hk)⟩

/-- C4 (amended): in the default summary mode, rendering a collection of N
places issues exactly one batched cache fetch regardless of N, and per-entity
resolution afterwards performs no further cache round trips. -/
theorem batch_single_fetch (w : World) (fl : Flags) (places : List PlaceRec)
    (st : CacheState) (hmode : fl.include_submissions = false) :
    (renderMany w fl places st).2.fetches = st.fetches + 1 := by
  have hcover : ∀ p ∈ places,
      (((preload_serialized_data_keys fl places st).buffer
        ((Kind.place, p.pk) : Key)).isSome = true)
      ∧ ∀ ss ∈ p.submission_sets,
        (((preload_serialized_data_keys fl places st).buffer
          ((Kind.submissionSet, ss.pk) : Key)).isSome = true) := by
    intro p hp
    constructor
    · apply getMany_buffered
      simp only [place_collection_cache_keys, List.mem_append]
      exact Or.inl (List.mem_map_of_mem _ hp)
    · intro ss hs
      apply getMany_buffered
      simp only [place_collection_cache_keys, List.mem_append]
      refine Or.inr (Or.inl ?_)
      apply List.mem_map_of_mem
      exact List.mem_flatten.2 ⟨p.submission_sets, List.mem_map_of_mem _ hp, hs⟩
  have h1 := (renderManyList_fetches w fl hmode places
    (preload_serialized_data_keys fl places st) hcover).1
  rw [show renderMany w fl places st =
    renderManyList w fl places (preload_serialized_data_keys fl places st) from rfl]
  rw [h1]
  exact getMany_fetches _ st

/-- Witness for the amended C4 at a concrete summary-mode render. -/
theorem batch_single_fetch_witness :
    (Flags.mk false false false).include_submissions = false
    ∧ (renderMany sampleWorld (Flags.mk false false false) [samplePlace]
        emptyCache).2.fetches = emptyCache.fetches + 1 :=
  ⟨rfl, batch_single_fetch sampleWorld (Flags.mk false false false) [samplePlace]
    emptyCache rfl⟩

/-- Counterexample to C4 as stated: with include_submissions on, rendering a
one-place collection holding one visible submission issues two cache fetches
from a cold cache — the batched preload plus a second fetch for the
submission's related-dataset key, which the preloaded key set does not
cover. -/
theorem batch_fetch_counterexample :
    (renderMany sampleWorld (Flags.mk true false false) [samplePlace]
      emptyCache).2.fetches = 2 := by
  rfl

/-- The pure summary loop, when every set key resolves and set names are
unique, succeeds and maps each set with a nonzero filtered count to its
`{length, url}` record while leaving zero-count sets untouched. -/
theorem pureSummaries_spec (rv : Key → Params) (fl : Flags) :
    ∀ (sets : List SubmissionSetRec) (acc : Dict),
    (∀ ss ∈ sets, argsOk submissionSetArgs (rv (Kind.submissionSet, ss.pk))) →
    (sets.map (fun ss => ss.name)).Nodup →
    ∃ s, pureSummaries rv fl sets acc = Except.ok s
    ∧ (∀ k, ¬ k ∈ sets.map (fun ss => ss.name) → alookup s k = alookup acc k)
    ∧ ∀ ss ∈ sets,
        (0 < (filteredChildren fl ss).length →
          ∃ kw, buildUrlKwargs submissionSetArgs (rv (Kind.submissionSet, ss.pk))
              no_live_attrs = Except.ok kw
            ∧ alookup s ss.name = some (JVal.obj
                [("length", JVal.num (Int.ofNat (filteredChildren fl ss).length)),
                 ("url", JVal.str (reverseUrl "submission-list" kw))]))
        ∧ ((filteredChildren fl ss).length = 0 →
          alookup s ss.name = alookup acc ss.name) := by
  intro sets
  induction sets with
  | nil =>
    intro acc _ _
    exact ⟨acc, rfl, fun k _ => rfl, fun ss hss => absurd hss (List.not_mem_nil ss)⟩
  | cons ss0 rest ih =>
    intro acc hres hnd
    simp only [List.map, List.nodup_cons] at hnd
    by_cases hlen : (filteredChildren fl ss0).length = 0
    · obtain ⟨s, hok, hun, hmem⟩ := ih acc
        (fun s hs => hres s (List.mem_cons_of_mem _ hs)) hnd.2
      refine ⟨s, ?_, ?_, ?_⟩
      · simp only [pureSummaries, if_pos hlen]
        exact hok
      · intro k hk
        simp only [List.map, List.mem_cons, not_or] at hk
        exact hun k hk.2
      · intro ss hss
        rcases List.mem_cons.1 hss with heq | hss'
        · subst heq
          refine ⟨fun hpos => absurd hpos (by simp [hlen]), fun _ => ?_⟩
          exact hun ss.name hnd.1
        · exact hmem ss hss'
    · obtain ⟨kw0, hkw0⟩ := hres ss0 (by simp)
      have hval : summaryValPure rv ss0 (filteredChildren fl ss0).length =
          Except.ok (JVal.obj
            [("length", JVal.num (Int.ofNat (filteredChildren fl ss0).length)),
             ("url", JVal.str (reverseUrl "submission-list" kw0))]) := by
        simp only [summaryValPure, hkw0]
      obtain ⟨s, hok, hun, hmem⟩ := ih
        (ainsert acc ss0.name (JVal.obj
          [("length", JVal.num (Int.ofNat (filteredChildren fl ss0).length)),
           ("url", JVal.str (reverseUrl "submission-list" kw0))]))
        (fun s hs => hres s (List.mem_cons_of_mem _ hs)) hnd.2
      refine ⟨s, ?_, ?_, ?_⟩
      · simp only [pureSummaries, if_neg hlen, hval]
        exact hok
      · intro k hk
        simp only [List.map, List.mem_cons, not_or] at hk
        rw [hun k hk.2, alookup_ainsert_ne _ hk.1]
      · intro ss hss
        rcases List.mem_cons.1 hss with heq | hss'
        · subst heq
          refine ⟨fun _ => ⟨kw0, hkw0, ?_⟩, fun hz => absurd hz hlen⟩
          rw [hun ss.name hnd.1]
          exact alookup_ainsert_self _ _ _
        · have h2 := hmem ss hss'
          refine ⟨h2.1, fun hz => ?_⟩
          rw [h2.2 hz]
          refine alookup_ainsert_ne _ (fun he => hnd.1 ?_)
          exact he ▸ List.mem_map_of_mem _ hss'

/-- C5: Summary-mode semantics.  For every place whose submission-set names
are unique and whose set keys resolve, summary mode returns, per named set
with a nonzero filtered count, a record whose length equals the number of
children passing the visibility filter together with the set's resolved
identifier, and omits every set whose filtered count is zero. -/
theorem summary_mode_semantics (w : World) (fl : Flags) (p : PlaceRec)
    (st : CacheState)
    (hnames : (p.submission_sets.map (fun ss => ss.name)).Nodup)
    (hres : ∀ ss ∈ p.submission_sets,
      argsOk submissionSetArgs (resolvedValue w st (Kind.submissionSet, ss.pk))) :
    ∃ s, (get_submission_set_summaries w fl p st).1 = Except.ok s
    ∧ ∀ ss ∈ p.submission_sets,
        (0 < (filteredChildren fl ss).length →
          ∃ kw, buildUrlKwargs submissionSetArgs
              (resolvedValue w st (Kind.submissionSet, ss.pk)) no_live_attrs =
              Except.ok kw
            ∧ alookup s ss.name = some (JVal.obj
                [("length", JVal.num (Int.ofNat (filteredChildren fl ss).length)),
                 ("url", JVal.str (reverseUrl "submission-list" kw))]))
        ∧ ((filteredChildren fl ss).length = 0 → alookup s ss.name = none) := by
  obtain ⟨s, hok, _, hmem⟩ := pureSummaries_spec (resolvedValue w st) fl
    p.submission_sets [] hres hnames
  refine ⟨s, ?_, ?_⟩
  · rw [show get_submission_set_summaries w fl p st =
      build_summaries w fl p.submission_sets [] st from rfl,
      (build_summaries_sim w fl p.submission_sets [] st).1, hok]
  · intro ss hss
    exact ⟨(hmem ss hss).1, fun hz => (hmem ss hss).2 hz⟩

/-- Witness for C5 at the sample place (one set with a single visible child,
one empty set) under default flags. -/
theorem summary_mode_semantics_witness :
    ((samplePlace.submission_sets.map (fun ss => ss.name)).Nodup
     ∧ (∀ ss ∈ samplePlace.submission_sets,
        argsOk submissionSetArgs
          (resolvedValue sampleWorld emptyCache (Kind.submissionSet, ss.pk))))
    ∧ ∃ s, (get_submission_set_summaries sampleWorld (Flags.mk false false false)
        samplePlace emptyCache).1 = Except.ok s
      ∧ ∀ ss ∈ samplePlace.submission_sets,
        (0 < (filteredChildren (Flags.mk false false false) ss).length →
          ∃ kw, buildUrlKwargs submissionSetArgs
              (resolvedValue sampleWorld emptyCache (Kind.submissionSet, ss.pk))
              no_live_attrs = Except.ok kw
            ∧ alookup s ss.name = some (JVal.obj
                [("length", JVal.num (Int.ofNat
                  (filteredChildren (Flags.mk false false false) ss).length)),
                 ("url", JVal.str (reverseUrl "submission-list" kw))]))
        ∧ ((filteredChildren (Flags.mk false false false) ss).length = 0 →
          alookup s ss.name = none) :=
  have h1 : (samplePlace.submission_sets.map (fun ss => ss.name)).Nodup := by
    decide
  have h2 : ∀ ss ∈ samplePlace.submission_sets,
      argsOk submissionSetArgs
        (resolvedValue sampleWorld emptyCache (Kind.submissionSet, ss.pk)) := by
    intro ss _
    exact ⟨[("owner_username", "o"), ("dataset_slug", "d"), ("place_id", "1"),
      ("submission_set_name", "c")], rfl⟩
  ⟨⟨h1, h2⟩, summary_mode_semantics sampleWorld (Flags.mk false false false)
    samplePlace emptyCache h1 h2⟩

/-- A filtered child is a child. -/
theorem mem_of_filteredChildren {fl : Flags} {ss : SubmissionSetRec}
    {sub : SubmissionRec} (h : sub ∈ filteredChildren fl ss) :
    sub ∈ ss.children := by
  by_cases hi : fl.include_invisible = true
  · simpa [filteredChildren, hi] using h
  · have heq : filteredChildren fl ss = ss.children.filter (fun s => s.visible) := by
      simp [filteredChildren, hi]
    rw [heq] at h
    exact List.mem_of_mem_filter h

/-- The pure submission list succeeds when every involved key resolves, and
its length is the number of serialized submissions. -/
theorem pureSubList_ok (rv : Key → Params) (fl : Flags) (dsPk plPk ssPk : Nat)
    (hds : argsOk datasetArgs (rv (Kind.dataset, dsPk)))
    (hset : argsOk submissionSetArgs (rv (Kind.submissionSet, ssPk)))
    (hpl : argsOk placeArgs (rv (Kind.place, plPk))) :
    ∀ subs : List SubmissionRec,
    (∀ sub ∈ subs, argsOk submissionArgs (rv (Kind.submission, sub.pk))) →
    ∃ docs, pureSubList rv fl dsPk plPk ssPk subs = Except.ok docs
      ∧ docs.length = subs.length := by
  intro subs
  induction subs with
  | nil => intro _; exact ⟨[], rfl, rfl⟩
  | cons sub rest ih =>
    intro hres
    obtain ⟨u, hu⟩ := hres sub (by simp)
    obtain ⟨dkw, hdkw⟩ := hds
    obtain ⟨skw, hskw⟩ := hset
    obtain ⟨pkw, hpkw⟩ := hpl
    obtain ⟨docs, hok, hlen⟩ := ih (fun s hs => hres s (List.mem_cons_of_mem _ hs))
    refine ⟨explode_data_blob fl.include_private [
        ("url", JVal.str (reverseUrl "submission-detail" u)),
        ("id", JVal.num (Int.ofNat sub.pk)),
        ("dataset", JVal.str (reverseUrl "dataset-detail" dkw)),
        ("set", JVal.str (reverseUrl "submission-list" skw)),
        ("place", JVal.str (reverseUrl "place-detail" pkw)),
        ("attachments", JVal.arr (sub.attachments.map attachment_to_native)),
        ("submitter", submitterVal sub.submitter),
        ("created_datetime", optStr sub.created_datetime),
        ("updated_datetime", optStr sub.updated_datetime),
        ("visible", JVal.boolean sub.visible),
        ("data", JVal.obj sub.blob)] :: docs, ?_, by simp [hlen]⟩
    simp only [pureSubList, subDocPure, hu, hdkw, hskw, hpkw, hok]

/-- The pure detail loop, when every involved key resolves and set names are
unique, succeeds and maps each set with a nonzero filtered count to the array
of its serialized filtered children while leaving zero-count sets untouched. -/
theorem pureDetails_spec (rv : Key → Params) (fl : Flags) (dsPk plPk : Nat)
    (hds : argsOk datasetArgs (rv (Kind.dataset, dsPk)))
    (hpl : argsOk placeArgs (rv (Kind.place, plPk))) :
    ∀ (sets : List SubmissionSetRec) (acc : Dict),
    (∀ ss ∈ sets, argsOk submissionSetArgs (rv (Kind.submissionSet, ss.pk))) →
    (∀ ss ∈ sets, ∀ sub ∈ ss.children,
      argsOk submissionArgs (rv (Kind.submission, sub.pk))) →
    (sets.map (fun ss => ss.name)).Nodup →
    ∃ d, pureDetails rv fl dsPk plPk sets acc = Except.ok d
    ∧ (∀ k, ¬ k ∈ sets.map (fun ss => ss.name) → alookup d k = alookup acc k)
    ∧ ∀ ss ∈ sets,
        (0 < (filteredChildren fl ss).length →
          ∃ l, alookup d ss.name = some (JVal.arr l)
            ∧ l.length = (filteredChildren fl ss).length)
        ∧ ((filteredChildren fl ss).length = 0 →
          alookup d ss.name = alookup acc ss.name) := by
  intro sets
  induction sets with
  | nil =>
    intro acc _ _ _
    exact ⟨acc, rfl, fun k _ => rfl, fun ss hss => absurd hss (List.not_mem_nil ss)⟩
  | cons ss0 rest ih =>
    intro acc hsets hsubs hnd
    simp only [List.map, List.nodup_cons] at hnd
    by_cases hlen : (filteredChildren fl ss0).length = 0
    · obtain ⟨d, hok, hun, hmem⟩ := ih acc
        (fun s hs => hsets s (List.mem_cons_of_mem _ hs))
        (fun s hs => hsubs s (List.mem_cons_of_mem _ hs)) hnd.2
      refine ⟨d, ?_, ?_, ?_⟩
      · simp only [pureDetails, if_pos hlen]
        exact hok
      · intro k hk
        simp only [List.map, List.mem_cons, not_or] at hk
        exact hun k hk.2
      · intro ss hss
        rcases List.mem_cons.1 hss with heq | hss'
        · subst heq
          exact ⟨fun hpos => absurd hpos (by simp [hlen]),
            fun _ => hun ss.name hnd.1⟩
        · exact hmem ss hss'
    · obtain ⟨docs, hdocs, hdlen⟩ := pureSubList_ok rv fl dsPk plPk ss0.pk hds
        (hsets ss0 (by simp)) hpl (filteredChildren fl ss0)
        (fun sub hs => hsubs ss0 (by simp) sub (mem_of_filteredChildren hs))
      obtain ⟨d, hok, hun, hmem⟩ := ih
        (ainsert acc ss0.name (JVal.arr (docs.map JVal.obj)))
        (fun s hs => hsets s (List.mem_cons_of_mem _ hs))
        (fun s hs => hsubs s (List.mem_cons_of_mem _ hs)) hnd.2
      refine ⟨d, ?_, ?_, ?_⟩
      · simp only [pureDetails, if_neg hlen, hdocs]
        exact hok
      · intro k hk
        simp only [List.map, List.mem_cons, not_or] at hk
        rw [hun k hk.2, alookup_ainsert_ne _ hk.1]
      · intro ss hss
        rcases List.mem_cons.1 hss with heq | hss'
        · subst heq
          refine ⟨fun _ => ⟨docs.map JVal.obj, ?_, by simp [hdlen]⟩,
            fun hz => absurd hz hlen⟩
          rw [hun ss.name hnd.1]
          exact alookup_ainsert_self _ _ _
        · have h2 := hmem ss hss'
          refine ⟨h2.1, fun hz => ?_⟩
          rw [h2.2 hz]
          refine alookup_ainsert_ne _ (fun he => hnd.1 ?_)
          exact he ▸ List.mem_map_of_mem _ hss'

/-- C6: Summary/detail count consistency.  Under identical flags, each named
submission set has its detail-mode serialized list exactly as long as the
count reported in summary mode, both modes applying the same visibility
filter and both omitting sets with zero filtered members. -/
theorem summary_detail_count_consistency (w : World) (fl : Flags) (p : PlaceRec)
    (st : CacheState)
    (hnames : (p.submission_sets.map (fun ss => ss.name)).Nodup)
    (hsets : ∀ ss ∈ p.submission_sets,
      argsOk submissionSetArgs (resolvedValue w st (Kind.submissionSet, ss.pk)))
    (hsubs : ∀ ss ∈ p.submission_sets, ∀ sub ∈ ss.children,
      argsOk submissionArgs (resolvedValue w st (Kind.submission, sub.pk)))
    (hds : argsOk datasetArgs (resolvedValue w st (Kind.dataset, p.dataset_id)))
    (hpl : argsOk placeArgs (resolvedValue w st (Kind.place, p.pk))) :
    ∃ s d, (get_submission_set_summaries w fl p st).1 = Except.ok s
    ∧ (get_detailed_submission_sets w fl p st).1 = Except.ok d
    ∧ ∀ ss ∈ p.submission_sets,
        ((filteredChildren fl ss).length = 0 →
          alookup s ss.name = none ∧ alookup d ss.name = none)
        ∧ (0 < (filteredChildren fl ss).length →
          ∃ l v, alookup d ss.name = some (JVal.arr l)
            ∧ alookup s ss.name = some (JVal.obj v)
            ∧ alookup v "length" = some (JVal.num (Int.ofNat l.length))) := by
  obtain ⟨s, hsok, _, hsmem⟩ := pureSummaries_spec (resolvedValue w st) fl
    p.submission_sets [] hsets hnames
  obtain ⟨d, hdok, _, hdmem⟩ := pureDetails_spec (resolvedValue w st) fl
    p.dataset_id p.pk hds hpl p.submission_sets [] hsets hsubs hnames
  refine ⟨s, d, ?_, ?_, ?_⟩
  · rw [show get_submission_set_summaries w fl p st =
      build_summaries w fl p.submission_sets [] st from rfl,
      (build_summaries_sim w fl p.submission_sets [] st).1, hsok]
  · rw [show get_detailed_submission_sets w fl p st =
      build_details w fl p.dataset_id p.pk p.submission_sets [] st from rfl,
      (build_details_sim w fl p.dataset_id p.pk p.submission_sets [] st).1, hdok]
  · intro ss hss
    constructor
    · intro hz
      exact ⟨(hsmem ss hss).2 hz, (hdmem ss hss).2 hz⟩
    · intro hpos
      obtain ⟨l, hl, hllen⟩ := (hdmem ss hss).1 hpos
      obtain ⟨kw, _, hsv⟩ := (hsmem ss hss).1 hpos
      refine ⟨l, _, hl, hsv, ?_⟩
      rw [hllen]
      simp [alookup]

/-- Witness for C6 at the sample place under default visibility flags. -/
theorem summary_detail_count_consistency_witness :
    ((samplePlace.submission_sets.map (fun ss => ss.name)).Nodup
     ∧ (∀ ss ∈ samplePlace.submission_sets,
        argsOk submissionSetArgs
          (resolvedValue sampleWorld emptyCache (Kind.submissionSet, ss.pk)))
     ∧ (∀ ss ∈ samplePlace.submission_sets, ∀ sub ∈ ss.children,
        argsOk submissionArgs
          (resolvedValue sampleWorld emptyCache (Kind.submission, sub.pk)))
     ∧ argsOk datasetArgs
        (resolvedValue sampleWorld emptyCache (Kind.dataset, samplePlace.dataset_id))
     ∧ argsOk placeArgs
        (resolvedValue sampleWorld emptyCache (Kind.place, samplePlace.pk)))
    ∧ ∃ s d, (get_submission_set_summaries sampleWorld (Flags.mk false false false)
        samplePlace emptyCache).1 = Except.ok s
      ∧ (get_detailed_submission_sets sampleWorld (Flags.mk false false false)
          samplePlace emptyCache).1 = Except.ok d
      ∧ ∀ ss ∈ samplePlace.submission_sets,
          ((filteredChildren (Flags.mk false false false) ss).length = 0 →
            alookup s ss.name = none ∧ alookup d ss.name = none)
          ∧ (0 < (filteredChildren (Flags.mk false false false) ss).length →
            ∃ l v, alookup d ss.name = some (JVal.arr l)
              ∧ alookup s ss.name = some (JVal.obj v)
              ∧ alookup v "length" = some (JVal.num (Int.ofNat l.length))) :=
  have h1 : (samplePlace.submission_sets.map (fun ss => ss.name)).Nodup := by
    decide
  have h2 : ∀ ss ∈ samplePlace.submission_sets,
      argsOk submissionSetArgs
        (resolvedValue sampleWorld emptyCache (Kind.submissionSet, ss.pk)) := by
    intro ss _
    exact ⟨[("owner_username", "o"), ("dataset_slug", "d"), ("place_id", "1"),
      ("submission_set_name", "c")], rfl⟩
  have h3 : ∀ ss ∈ samplePlace.submission_sets, ∀ sub ∈ ss.children,
      argsOk submissionArgs
        (resolvedValue sampleWorld emptyCache (Kind.submission, sub.pk)) := by
    intro ss _ sub _
    exact ⟨[("owner_username", "o"), ("dataset_slug", "d"), ("place_id", "1"),
      ("submission_set_name", "c"), ("submission_id", "2")], rfl⟩
  have h4 : argsOk datasetArgs
      (resolvedValue sampleWorld emptyCache (Kind.dataset, samplePlace.dataset_id)) :=
    ⟨[("owner_username", "o"), ("dataset_slug", "d")], rfl⟩
  have h5 : argsOk placeArgs
      (resolvedValue sampleWorld emptyCache (Kind.place, samplePlace.pk)) :=
    ⟨[("owner_username", "o"), ("dataset_slug", "d"), ("place_id", "1")], rfl⟩
  ⟨⟨h1, h2, h3, h4, h5⟩,
   summary_detail_count_consistency sampleWorld (Flags.mk false false false)
     samplePlace emptyCache h1 h2 h3 h4 h5⟩

/-- Exploding the blob does not disturb a document key outside the blob. -/
theorem alookup_explode_of_not_blob (ip : Bool) (data : Dict) (blob : Dict)
    (k : String) (hdata : alookup data "data" = some (JVal.obj blob))
    (hblob : ¬ k ∈ akeys blob) :
    alookup (explode_data_blob ip data) k = alookup (aerase data "data") k := by
  simp only [explode_data_blob, hdata, json_loads]
  apply alookup_aupdate_not_mem
  by_cases hip : ip = true
  · simpa [hip] using hblob
  · have hip2 : ip = false := by
      revert hip
      cases ip <;> simp
    rw [hip2]
    simp only [Bool.false_eq_true, if_false]
    intro hmem
    apply hblob
    simp only [akeys, List.mem_map] at hmem ⊢
    obtain ⟨kv, hkv, hfst⟩ := hmem
    exact ⟨kv, List.mem_of_mem_filter hkv, hfst⟩

/-- A pure place document whose identifier resolves and whose submission sets
succeed renders a null stored geometry as the literal origin point. -/
theorem placeDocPure_ok_geometry (rv : Key → Params) (fl : Flags) (p : PlaceRec)
    (kw : Params)
    (hkw : buildUrlKwargs placeArgs (rv (Kind.place, p.pk)) no_live_attrs =
      Except.ok kw)
    (ssets : Dict)
    (hssets : (if fl.include_submissions then
        pureDetails rv fl p.dataset_id p.pk p.submission_sets []
      else pureSummaries rv fl p.submission_sets []) = Except.ok ssets)
    (hgeo : p.geometry = none) (hblob : ¬ "geometry" ∈ akeys p.blob) :
    ∃ doc, placeDocPure rv fl p = Except.ok doc
      ∧ alookup doc "geometry" = some (JVal.str "POINT(0 0)") := by
  simp only [placeDocPure, hkw, hssets]
  refine ⟨_, rfl, ?_⟩
  rw [hgeo]
  have hdata : alookup ([
      ("url", JVal.str (reverseUrl "place-detail" kw)),
      ("id", JVal.num (Int.ofNat p.pk)),
      ("geometry", JVal.str (match (none : Option String) with
        | some g => g
        | none => "POINT(0 0)")),
      ("dataset", JVal.num (Int.ofNat p.dataset_id)),
      ("attachments", JVal.arr (p.attachments.map attachment_to_native)),
      ("submitter", submitterVal p.submitter),
      ("data", JVal.obj p.blob),
      ("visible", JVal.boolean p.visible),
      ("created_datetime", optStr p.created_datetime),
      ("updated_datetime", optStr p.updated_datetime)] : Dict) "data" =
      some (JVal.obj p.blob) := by
    simp [alookup]
  rcases hdist : p.distance with _ | dstr
  · simp only []
    rw [alookup_ainsert_ne _ (by decide : ("geometry" : String) ≠ "submission_sets")]
    rw [alookup_explode_of_not_blob fl.include_private _ p.blob "geometry" hdata hblob]
    simp [aerase, alookup]
  · simp only []
    rw [alookup_ainsert_ne _ (by decide : ("geometry" : String) ≠ "distance")]
    rw [alookup_ainsert_ne _ (by decide : ("geometry" : String) ≠ "submission_sets")]
    rw [alookup_explode_of_not_blob fl.include_private _ p.blob "geometry" hdata hblob]
    simp [aerase, alookup]

/-- C10: A place whose stored geometry is null renders, under every mode in
which the document renders at all, a geometry field equal to the literal WKT
string POINT(0 0). -/
theorem null_geometry_origin (w : World) (fl : Flags) (p : PlaceRec)
    (st : CacheState)
    (hgeo : p.geometry = none)
    (hblob : ¬ "geometry" ∈ akeys p.blob)
    (hnames : (p.submission_sets.map (fun ss => ss.name)).Nodup)
    (hsets : ∀ ss ∈ p.submission_sets,
      argsOk submissionSetArgs (resolvedValue w st (Kind.submissionSet, ss.pk)))
    (hsubs : ∀ ss ∈ p.submission_sets, ∀ sub ∈ ss.children,
      argsOk submissionArgs (resolvedValue w st (Kind.submission, sub.pk)))
    (hds : argsOk datasetArgs (resolvedValue w st (Kind.dataset, p.dataset_id)))
    (hpl : argsOk placeArgs (resolvedValue w st (Kind.place, p.pk))) :
    ∃ doc, (renderOne w fl p st).1 = Except.ok doc
      ∧ alookup doc "geometry" = some (JVal.str "POINT(0 0)") := by
  rw [show renderOne w fl p st = place_to_native w fl p st from rfl,
    (place_to_native_sim w fl p st).1]
  obtain ⟨pkw, hpkw⟩ := hpl
  by_cases hmode : fl.include_submissions = true
  · obtain ⟨d, hdok, _, _⟩ := pureDetails_spec (resolvedValue w st) fl
      p.dataset_id p.pk hds ⟨pkw, hpkw⟩ p.submission_sets [] hsets hsubs hnames
    exact placeDocPure_ok_geometry (resolvedValue w st) fl p pkw hpkw d
      (by simp [hmode, hdok]) hgeo hblob
  · obtain ⟨s, hsok, _, _⟩ := pureSummaries_spec (resolvedValue w st) fl
      p.submission_sets [] hsets hnames
    have hmode2 : fl.include_submissions = false := by
      revert hmode
      cases fl.include_submissions <;> simp
    exact placeDocPure_ok_geometry (resolvedValue w st) fl p pkw hpkw s
      (by simp [hmode2, hsok]) hgeo hblob

/-- Witness for C10 at the sample place with a null geometry. -/
theorem null_geometry_origin_witness :
    (nullGeomPlace.geometry = none
     ∧ ¬ "geometry" ∈ akeys nullGeomPlace.blob
     ∧ (nullGeomPlace.submission_sets.map (fun ss => ss.name)).Nodup
     ∧ (∀ ss ∈ nullGeomPlace.submission_sets,
        argsOk submissionSetArgs
          (resolvedValue sampleWorld emptyCache (Kind.submissionSet, ss.pk)))
     ∧ (∀ ss ∈ nullGeomPlace.submission_sets, ∀ sub ∈ ss.children,
        argsOk submissionArgs
          (resolvedValue sampleWorld emptyCache (Kind.submission, sub.pk)))
     ∧ argsOk datasetArgs
        (resolvedValue sampleWorld emptyCache (Kind.dataset, nullGeomPlace.dataset_id))
     ∧ argsOk placeArgs
        (resolvedValue sampleWorld emptyCache (Kind.place, nullGeomPlace.pk)))
    ∧ ∃ doc, (renderOne sampleWorld (Flags.mk false false false) nullGeomPlace
        emptyCache).1 = Except.ok doc
      ∧ alookup doc "geometry" = some (JVal.str "POINT(0 0)") :=
  have h0 : nullGeomPlace.geometry = none := rfl
  have h1 : ¬ "geometry" ∈ akeys nullGeomPlace.blob := by decide
  have h2 : (nullGeomPlace.submission_sets.map (fun ss => ss.name)).Nodup := by
    decide
  have h3 : ∀ ss ∈ nullGeomPlace.submission_sets,
      argsOk submissionSetArgs
        (resolvedValue sampleWorld emptyCache (Kind.submissionSet, ss.pk)) := by
    intro ss _
    exact ⟨[("owner_username", "o"), ("dataset_slug", "d"), ("place_id", "1"),
      ("submission_set_name", "c")], rfl⟩
  have h4 : ∀ ss ∈ nullGeomPlace.submission_sets, ∀ sub ∈ ss.children,
      argsOk submissionArgs
        (resolvedValue sampleWorld emptyCache (Kind.submission, sub.pk)) := by
    intro ss _ sub _
    exact ⟨[("owner_username", "o"), ("dataset_slug", "d"), ("place_id", "1"),
      ("submission_set_name", "c"), ("submission_id", "2")], rfl⟩
  have h5 : argsOk datasetArgs
      (resolvedValue sampleWorld emptyCache (Kind.dataset, nullGeomPlace.dataset_id)) :=
    ⟨[("owner_username", "o"), ("dataset_slug", "d")], rfl⟩
  have h6 : argsOk placeArgs
      (resolvedValue sampleWorld emptyCache (Kind.place, nullGeomPlace.pk)) :=
    ⟨[("owner_username", "o"), ("dataset_slug", "d"), ("place_id", "1")], rfl⟩
  ⟨⟨h0, h1, h2, h3, h4, h5, h6⟩,
   null_geometry_origin sampleWorld (Flags.mk false false false) nullGeomPlace
     emptyCache h0 h1 h2 h3 h4 h5 h6⟩

/-- A collection render yields exactly one entry per member, whatever each
member's individual outcome. -/
theorem renderManyList_length (w : World) (fl : Flags) :
    ∀ (places : List PlaceRec) (st : CacheState),
    (renderManyList w fl places st).1.length = places.length := by
  intro places
  induction places with
  | nil => intro st; rfl
  | cons p rest ih =>
    intro st
    simp only [renderManyList]
    rcases h1 : renderOne w fl p st with ⟨doc, st1⟩
    dsimp only
    rcases h2 : renderManyList w fl rest st1 with ⟨docs, st2⟩
    dsimp only
    have h3 := ih st1
    rw [h2] at h3
    dsimp only at h3
    simp [h3]

/-- C7: Resolver fallback and failure.  The argument loop takes each URL
parameter from the cached mapping first and falls back to a live attribute
read; a parameter found on neither path makes it fail with an error naming
exactly that parameter (the spec's UnresolvedPathError); the cached mapping
consulted is the one resolution returns for the entity's key; and a failure
is fatal only for its own entity — a batch render still yields one entry per
member. -/
theorem resolver_failure_semantics :
    ∀ (args : List String) (ikw : Params) (g : String → Option String),
    (∀ kw, buildUrlKwargs args ikw g = Except.ok kw →
      ∀ a ∈ args, alookup kw a = (match alookup ikw a with
        | some x => some x
        | none => g a))
    ∧ (∀ m, buildUrlKwargs args ikw g = Except.error m →
        m ∈ args ∧ alookup ikw m = none ∧ g m = none)
    ∧ (∀ (w : World) (key : Key) (st : CacheState),
        (get_url_kwargs w args key g st).1 =
          buildUrlKwargs args (resolvedValue w st key) g)
    ∧ (∀ (w : World) (fl : Flags) (places : List PlaceRec) (st : CacheState),
        (renderMany w fl places st).1.length = places.length) := by
  intro args ikw g
  refine ⟨?_, ?_, fun w key st => guk_fst w args key g st,
    fun w fl places st => ?_⟩
  · induction args with
    | nil => intro kw _ a ha; exact absurd ha (List.not_mem_nil a)
    | cons a0 rest ih =>
      intro kw hok a ha
      simp only [buildUrlKwargs] at hok
      rcases hv : (match alookup ikw a0 with
        | some x => some x
        | none => g a0) with _ | x
      · rw [hv] at hok
        dsimp only at hok
        simp at hok
      · rw [hv] at hok
        dsimp only at hok
        rcases hrec : buildUrlKwargs rest ikw g with e | kw2
        · rw [hrec] at hok
          dsimp only at hok
          simp at hok
        · rw [hrec] at hok
          dsimp only at hok
          have hkw : kw = (a0, x) :: kw2 := (Except.ok.inj hok).symm
          subst hkw
          by_cases haa : a0 = a
          · subst haa
            simp only [alookup, if_pos rfl]
            exact hv.symm
          · simp only [alookup, if_neg haa]
            have ha2 : a ∈ rest := by
              rcases List.mem_cons.1 ha with h | h
              · exact absurd h.symm haa
              · exact h
            exact ih kw2 hrec a ha2
  · induction args with
    | nil =>
      intro m hm
      simp only [buildUrlKwargs] at hm
      simp at hm
    | cons a0 rest ih =>
      intro m hm
      simp only [buildUrlKwargs] at hm
      rcases hv : (match alookup ikw a0 with
        | some x => some x
        | none => g a0) with _ | x
      · rw [hv] at hm
        dsimp only at hm
        have hma : a0 = m := Except.error.inj hm
        subst hma
        refine ⟨by simp, ?_⟩
        rcases halo : alookup ikw a0 with _ | x2
        · rw [halo] at hv
          dsimp only at hv
          exact ⟨rfl, hv⟩
        · rw [halo] at hv
          dsimp only at hv
          simp at hv
      · rw [hv] at hm
        dsimp only at hm
        rcases hrec : buildUrlKwargs rest ikw g with e | kw2
        · rw [hrec] at hm
          dsimp only at hm
          have hem : e = m := Except.error.inj hm
          subst hem
          obtain ⟨hmem, h2, h3⟩ := ih e hrec
          exact ⟨List.mem_cons_of_mem _ hmem, h2, h3⟩
        · rw [hrec] at hm
          dsimp only at hm
          simp at hm
  · rw [show renderMany w fl places st =
      renderManyList w fl places (preload_serialized_data_keys fl places st) from rfl]
    exact renderManyList_length w fl places _

/-- Witness for C7 at a concrete missing parameter. -/
theorem resolver_failure_semantics_witness :
    buildUrlKwargs ["owner_username"] [] no_live_attrs =
      Except.error "owner_username"
    ∧ ("owner_username" ∈ ["owner_username"]
       ∧ alookup ([] : Params) "owner_username" = none
       ∧ no_live_attrs "owner_username" = none) :=
  ⟨rfl, (resolver_failure_semantics ["owner_username"] [] no_live_attrs).2.1
    "owner_username" rfl⟩

end Shareabouts
